import Mathlib

/-!
# The derby lane judge (`judge.c`): timer protocol engine

A shallow embedding of `init_timer`, `reinit_timer`, `get_times`, `rearm_timer`
and of the session loop of `main`, followed by theorems about them.

Conventions of the embedding.

* A line obtained from `fgets` is `Option (List Char)`: `none` when `fgets`
  returns `NULL`, otherwise the C string left in the buffer (the characters in
  front of the terminating NUL, at most `LINE_LEN - 1` of them).
* `strtol`, `strtof`, the value `0.0` and the comparison with it belong to the C
  library and to the floating point unit, not to `judge.c`.  The functions that
  call them take them as a record `CLib F`, where `F` is the type of `float`
  values, so that what is proved about the loops holds for whatever the library
  does.  `textlib` is one concrete library over `ℚ`, used to run the code on
  concrete lines.
* An array reached through a pointer is a map from indices to values; an index
  outside the declared array is a cell outside it.  `get_times` only has the
  pointer, so its model writes wherever the line sends it.  `main` owns
  `times[MAX_LANES]`: an iteration of its loop in which `get_times` writes
  outside that array has no defined behaviour and therefore no result in the
  model (`times_in_bounds`).
-/

set_option linter.unusedVariables false

namespace Judge

/-! ## Constants -/

/-- Number of lanes the per-lane buffers of `main` are declared with. -/
def MAX_LANES : Nat := 4

/-- Size of every line buffer. -/
def LINE_LEN : Nat := 80

/-! ## The C library as seen by `judge.c` -/

/-- Conversions and float primitives used by `get_times`.  `strtol s` is the
pair `(strtol(s, &end, 0), end)`, `strtof s` the pair `(strtof(s, &end), end)`,
`zero` the float whose bytes are all zero and `is_zero x` the test `x == 0.0`. -/
structure CLib (F : Type) where
  strtol : List Char → Int × List Char
  strtof : List Char → F × List Char
  zero : F
  is_zero : F → Bool

/-- Position of the last occurrence of `c` in the C string `s`, as `strrchr`
finds it (`none` for the null pointer). -/
def strrchr (s : List Char) (c : Char) : Option Nat :=
  (s.reverse.indexOf? c).map (fun k => s.length - 1 - k)

/-- Conversion of a `long` to `int` (LP64: the low 32 bits, two's complement). -/
def long_to_int (v : Int) : Int :=
  (v + 2 ^ 31) % 2 ^ 32 - 2 ^ 31

/-- Effect of `memset(results, 0, sizeof(float) * lanes)`. -/
def memset_floats {F : Type} (zero : F) (results : Int → F) (lanes : Nat) : Int → F :=
  fun j => if 0 ≤ j ∧ j < (lanes : Int) then zero else results j

/-- The `lanes` floats that start at `results`. -/
def time_vector {F : Type} (lanes : Nat) (results : Int → F) : List F :=
  (List.range lanes).map (fun (j : Nat) => results (j : Int))

/-! ## `init_timer` -/

/-- `init_timer`: the number of lanes, or 0 on error.  The argument is what
`fgets(timer_id, LINE_LEN, fd)` delivers. -/
def init_timer (fd : Option (List Char)) : Nat :=
  match fd with
  | none => 0
  | some timer_id =>
    if (strrchr timer_id '8').isSome then 8
    else if (strrchr timer_id '4').isSome then 4
    else if (strrchr timer_id '2').isSome then 2
    else 0

/-! ## `get_times` -/

/-- The loop `for (i = 0; i < lanes; i++)` of `get_times`, entered with
`remaining = lanes - i` iterations left.  Returns `retval` and the memory at
`results` when the loop is left (by `break` or because `i` reached `lanes`). -/
def get_times_loop {F : Type} (lib : CLib F) :
    (remaining : Nat) → (i : Nat) → (next : List Char) → (retval : Int) →
    (results : Int → F) → Int × (Int → F)
  | 0, _, _, retval, results => (retval, results)
  | remaining + 1, i, next, retval, results =>
    let lane := long_to_int (lib.strtol next).1
    let next1 := (lib.strtol next).2
    let retval1 := if i = 0 then lane else retval
    let current := (lib.strtof next1).1
    let next2 := (lib.strtof next1).2
    if lib.is_zero current then (retval1, results)
    else get_times_loop lib remaining (i + 1) next2 retval1
      (Function.update results (lane - 1) current)

/-- `get_times`: returns -1 if error, 0 for do-over, or winning lane, together
with the memory at `results` after the call.  `fd` is what
`fgets(time_data, LINE_LEN, fd)` delivers. -/
def get_times {F : Type} (lib : CLib F) (fd : Option (List Char)) (lanes : Nat)
    (results : Int → F) (debug : Bool) : Int × (Int → F) :=
  match fd with
  | none => (-1, results)
  | some time_data =>
    get_times_loop lib lanes 0 time_data 0 (memset_floats lib.zero results lanes)

/-- The `(laneIndex, elapsedSeconds)` pair at the head of `next`, as the loop
body of `get_times` reads it, and the rest of the line. -/
def read_pair {F : Type} (lib : CLib F) (next : List Char) : (Int × F) × List Char :=
  ((long_to_int (lib.strtol next).1, (lib.strtof (lib.strtol next).2).1),
   (lib.strtof (lib.strtol next).2).2)

/-- The first `n` pairs of a result line. -/
def line_pairs {F : Type} (lib : CLib F) : Nat → List Char → List (Int × F)
  | 0, _ => []
  | n + 1, next => (read_pair lib next).1 :: line_pairs lib n (read_pair lib next).2

/-- Of the first `n` pairs of a line, those that `get_times` stores: the ones in
front of the first pair whose time is zero. -/
def stored_pairs {F : Type} (lib : CLib F) (n : Nat) (line : List Char) : List (Int × F) :=
  (line_pairs lib n line).takeWhile (fun p => !lib.is_zero p.2)

/-- Memory after the stores `results[lane - 1] = current` for the given pairs,
in order. -/
def apply_stores {F : Type} (results : Int → F) (pairs : List (Int × F)) : Int → F :=
  pairs.foldl (fun m p => Function.update m (p.1 - 1) p.2) results

/-- The call `get_times(port, lanes, times, debugmode)` made by `main` stays inside
`times[MAX_LANES]`: a failed read writes nothing; otherwise the `lanes` floats
cleared by `memset` and every store `results[lane - 1]` must lie in the array. -/
def times_in_bounds {F : Type} (lib : CLib F) (fd : Option (List Char)) (lanes : Nat) : Bool :=
  match fd with
  | none => true
  | some line =>
    decide (lanes ≤ MAX_LANES) &&
      (stored_pairs lib lanes line).all
        (fun p => decide (0 ≤ p.1 - 1) && decide (p.1 - 1 < (MAX_LANES : Int)))

/-! ## A concrete library for numeric text

`textlib` models `strtol` (base 0) and `strtof` on the text the protocol is
made of: optional white space, an optional sign, then an integer in decimal,
octal or hexadecimal notation, respectively a decimal number with an optional
fraction and an optional decimal exponent.  A float is carried as the exact
rational its text denotes, except that a magnitude that binary32 rounds to zero
is returned as 0, so that `current == 0.0` is decided as in C.  The spellings
of infinities and NaNs and hexadecimal floats are not modelled. -/

/-- White space of the C locale. -/
def isspace (c : Char) : Bool :=
  c = ' ' || c = '\t' || c = '\n' || c = '\x0b' || c = '\x0c' || c = '\r'

/-- Skips leading white space. -/
def skip_space : List Char → List Char
  | [] => []
  | c :: cs => if isspace c then skip_space cs else c :: cs

/-- Value of `c` read as a digit or letter. -/
def digit_value (c : Char) : Option Nat :=
  if '0' ≤ c ∧ c ≤ '9' then some (c.toNat - 48)
  else if 'a' ≤ c ∧ c ≤ 'z' then some (c.toNat - 87)
  else if 'A' ≤ c ∧ c ≤ 'Z' then some (c.toNat - 55)
  else none

/-- Reads the longest run of digits of the given base: the accumulated value,
the number of digits read and the rest. -/
def read_digits (base : Nat) : List Char → Nat → Nat → Nat × Nat × List Char
  | [], acc, count => (acc, count, [])
  | c :: cs, acc, count =>
    match digit_value c with
    | some d =>
      if d < base then read_digits base cs (acc * base + d) (count + 1)
      else (acc, count, c :: cs)
    | none => (acc, count, c :: cs)

/-- Splits an optional sign off: `true` for a minus sign. -/
def read_sign : List Char → Bool × List Char
  | '-' :: cs => (true, cs)
  | '+' :: cs => (false, cs)
  | cs => (false, cs)

/-- Largest `long` (LP64). -/
def LONG_MAX : Int := 2 ^ 63 - 1

/-- Smallest `long` (LP64). -/
def LONG_MIN : Int := -(2 ^ 63)

/-- Base selected by `strtol` with base 0, and the text the digits start at. -/
def detect_base : List Char → Nat × List Char
  | '0' :: x :: h :: cs =>
    if (x = 'x' || x = 'X') && (match digit_value h with | some d => decide (d < 16) | none => false)
    then (16, h :: cs) else (8, '0' :: x :: h :: cs)
  | '0' :: cs => (8, '0' :: cs)
  | cs => (10, cs)

/-- Model of `strtol(nptr, &end, 0)`: the value and `end`.  Without digits
there is no conversion: the value is 0 and `end` is `nptr`. -/
def strtol (nptr : List Char) : Int × List Char :=
  let signed := read_sign (skip_space nptr)
  let based := detect_base signed.2
  let digits := read_digits based.1 based.2 0 0
  if digits.2.1 = 0 then (0, nptr)
  else
    let v : Int := if signed.1 then -(digits.1 : Int) else (digits.1 : Int)
    (max LONG_MIN (min LONG_MAX v), digits.2.2)

/-- Optional exponent part `e[+-]digits`: the exponent and the rest.  Without
a digit after the `e` nothing is consumed. -/
def read_exponent : List Char → Int × List Char
  | c :: cs =>
    if c = 'e' || c = 'E' then
      let signed := read_sign cs
      let digits := read_digits 10 signed.2 0 0
      if digits.2.1 = 0 then (0, c :: cs)
      else ((if signed.1 then -(digits.1 : Int) else (digits.1 : Int)), digits.2.2)
    else (0, c :: cs)
  | [] => (0, [])

/-- The rational `m * 10 ^ e`, or 0 when its magnitude is at most `2 ^ (-150)`,
which binary32 rounds to zero. -/
def decimal_value (neg : Bool) (m : Nat) (e : Int) : ℚ :=
  match e with
  | Int.ofNat k => mkRat (if neg then -((m * 10 ^ k : Nat) : Int) else ((m * 10 ^ k : Nat) : Int)) 1
  | Int.negSucc k =>
    if m * 2 ^ 150 ≤ 10 ^ (k + 1) then 0
    else mkRat (if neg then -(m : Int) else (m : Int)) (10 ^ (k + 1))

/-- Model of `strtof(nptr, &end)` on decimal text: the value and `end`.
Without a digit in the mantissa there is no conversion: the value is 0 and
`end` is `nptr`. -/
def strtof (nptr : List Char) : ℚ × List Char :=
  let signed := read_sign (skip_space nptr)
  let whole := read_digits 10 signed.2 0 0
  let frac : Nat × Nat × List Char :=
    match whole.2.2 with
    | '.' :: cs => read_digits 10 cs whole.1 0
    | cs => (whole.1, 0, cs)
  if whole.2.1 + frac.2.1 = 0 then (0, nptr)
  else
    let ex := read_exponent frac.2.2
    (decimal_value signed.1 frac.1 (ex.1 - (frac.2.1 : Int)), ex.2)

/-- The library on numeric text, with floats carried as rationals. -/
def textlib : CLib ℚ where
  strtol := strtol
  strtof := strtof
  zero := 0
  is_zero := fun x => decide (x = 0)

/-! ## `open_timer` and `reinit_timer` -/

/-- Handle of an open stream (a non-null `FILE *`). -/
abbrev Conn := Nat

/-- Position of the first occurrence of `c` in the C string `s`, as `strchr`
finds it (`none` for the null pointer). -/
def strchr (s : List Char) (c : Char) : Option Nat :=
  s.indexOf? c

/-- `open_timer`: `fopen_result` is what `fopen(portname, "r+")` delivers.  The
configuration of the serial port done when `config` is set does not change the
handle.  On the failure path the source has a bare `return;`, which leaves the
null pointer of `fopen` as the value. -/
def open_timer (fopen_result : Option Conn) (config : Bool) : Option Conn :=
  match fopen_result with
  | none => none
  | some fd => some fd

/-- What the world does on one pass through the `retry:` label of
`reinit_timer`, once the operator has pressed Enter: the outcome of `fopen` and,
for a port that opened, what `fgets` delivers inside `init_timer`. -/
structure Attempt where
  fopen_result : Option Conn
  banner : Option (List Char)
  deriving DecidableEq

/-- Outcome of a `reinit_timer` that returned: the handle returned, how many
times the operator was waited for (`fgets` on `stdin`), how many times
`open_timer` was called, and the handles passed to `close_timer`, in order. -/
structure Reconnected where
  fd : Conn
  confirmations : Nat
  opens : Nat
  closed : List Conn
  deriving DecidableEq

/-- The code of `reinit_timer` from the label `retry:` on, run against the
remaining attempts.  `none`: the attempts are used up and the function is
still waiting for the operator. -/
def reinit_retry (config : Bool) (lanes_expected : Nat) :
    List Attempt → Nat → Nat → List Conn → Option Reconnected
  | [], _, _, _ => none
  | a :: rest, confirmations, opens, closed =>
    match open_timer a.fopen_result config with
    | none => reinit_retry config lanes_expected rest (confirmations + 1) (opens + 1) closed
    | some fd =>
      if init_timer a.banner ≠ lanes_expected then
        reinit_retry config lanes_expected rest (confirmations + 1) (opens + 1) (closed ++ [fd])
      else some ⟨fd, confirmations + 1, opens + 1, closed⟩

/-- `reinit_timer`: closes `port`, then retries until a port opens and reports
`lanes_expected` lanes.  The port name is represented by the outcomes of
opening it, `attempts`. -/
def reinit_timer (port : Conn) (config : Bool) (lanes_expected : Nat)
    (attempts : List Attempt) : Option Reconnected :=
  reinit_retry config lanes_expected attempts 0 0 [port]

/-! ## `rearm_timer` -/

/-- `rearm_timer`: the bytes written and the stream each is written to. -/
def rearm_timer (fd : Conn) (debug : Bool) : List (Conn × Char) :=
  if !debug then [(fd, ' ')] else []

/-! ## The session loop of `main` -/

/-- Variables of `main` that live across iterations of the main loop.
`prev_times j i` is `prev_times[j][i]`: lane `j`, history slot `i`. -/
structure Session (F : Type) where
  port : Conn
  debugmode : Bool
  lanes : Nat
  times : Int → F
  prev_times : Nat → Int → F
  prev_head : Int
  tmpbuf : List Char

/-- What the world supplies to one iteration of the main loop: the line
`get_times` reads, the reconnect attempts `reinit_timer` meets if it is called,
and the operator's answer to the prompt that ends the iteration. -/
structure Round where
  line : Option (List Char)
  attempts : List Attempt
  reply : Option (List Char)

/-- What one iteration of the main loop shows and sends: the argument of
`display_winner`, the times given to `display_times`, the rows printed under
"Previous results:" each with the slot it was read from, whether the null race
notice was printed, the bytes written to the link, and whether the loop was left. -/
structure Display (F : Type) where
  winner : Option Int
  times : Option (List F)
  previous : Option (List (Int × List F))
  null_race : Bool
  written : List (Conn × Char)
  exit : Bool

/-- Effect of `for (j = 0; j < lanes; j++) prev_times[j][prev_head] = times[j];`. -/
def save_times {F : Type} (lanes : Nat) (times : Int → F) (prev_times : Nat → Int → F)
    (prev_head : Int) : Nat → Int → F :=
  fun j i => if j < lanes ∧ i = prev_head then times (j : Int) else prev_times j i

/-- One printed row of previous results: `prev_times[j][i]` for `j < lanes`. -/
def previous_row {F : Type} (lanes : Nat) (prev_times : Nat → Int → F) (i : Int) : List F :=
  (List.range lanes).map (fun j => prev_times j i)

/-- The loop `while (i != prev_head)` that prints the previous results, run for
at most `fuel` iterations; `none` when the fuel does not suffice. -/
def previous_loop {F : Type} (lanes : Nat) (prev_times : Nat → Int → F) (prev_head : Int) :
    Nat → Int → Option (List (Int × List F))
  | 0, i => if i ≠ prev_head then none else some []
  | fuel + 1, i =>
    if i ≠ prev_head then
      (previous_loop lanes prev_times prev_head fuel (if i - 1 < 0 then 3 else i - 1)).map
        (fun rows => (i, previous_row lanes prev_times i) :: rows)
    else some []

/-- The branch `if (tmp > 0)` of the main loop: display, save into the history,
print the previous results, advance `prev_head`. -/
def good_race {F : Type} (fuel : Nat) (s : Session F) (tmp : Int) :
    Option (Session F × Display F) :=
  let prev := save_times s.lanes s.times s.prev_times s.prev_head
  match previous_loop s.lanes prev s.prev_head fuel
      (if s.prev_head - 1 < 0 then 3 else s.prev_head - 1) with
  | none => none
  | some rows =>
    some ({ s with prev_times := prev,
                   prev_head := if s.prev_head + 1 = 4 then 0 else s.prev_head + 1 },
          { winner := some tmp, times := some (time_vector s.lanes s.times),
            previous := some rows, null_race := false, written := [], exit := false })

/-- The body of `while (1)` in `main`.  `none`: the iteration has no defined
behaviour because `get_times` writes outside `times`, or it does not come to
its end with the fuel and the reconnect attempts supplied. -/
def loop_iteration {F : Type} (lib : CLib F) (fuel : Nat) (s : Session F) (r : Round) :
    Option (Session F × Display F) :=
  let got := get_times lib r.line s.lanes s.times s.debugmode
  let tmp := got.1
  let s1 : Session F := { s with times := got.2 }
  let blank : Display F :=
    { winner := none, times := none, previous := none, null_race := false,
      written := [], exit := false }
  match (if times_in_bounds lib r.line s.lanes = false then none
      else if tmp > 0 then good_race fuel s1 tmp else some (s1, blank)) with
  | none => none
  | some (s2, d2) =>
    let d3 : Display F := { d2 with null_race := decide (tmp = 0) }
    match (if tmp < 0 then
        (reinit_timer s2.port (!s2.debugmode) s2.lanes r.attempts).map
          (fun rc => ({ s2 with port := rc.fd } : Session F))
      else some s2) with
    | none => none
    | some s3 =>
      let tmpbuf := match r.reply with
        | some answer => answer
        | none => s3.tmpbuf
      let s4 : Session F := { s3 with tmpbuf := tmpbuf }
      if (strchr tmpbuf 'x').isSome || (strchr tmpbuf 'X').isSome then
        some (s4, { d3 with exit := true })
      else
        some (s4, { d3 with written := rearm_timer s4.port s4.debugmode })

/-- The main loop run over the rounds supplied, up to the iteration that leaves
it: the final variables and what each iteration showed. -/
def session_loop {F : Type} (lib : CLib F) (fuel : Nat) :
    Session F → List Round → Option (Session F × List (Display F))
  | s, [] => some (s, [])
  | s, r :: rest =>
    match loop_iteration lib fuel s r with
    | none => none
    | some (s1, d) =>
      if d.exit then some (s1, [d])
      else
        match session_loop lib fuel s1 rest with
        | none => none
        | some (s2, ds) => some (s2, d :: ds)

/-- The part of `main` between option parsing and the main loop: open the port,
read the banner, clear the history, wait for Enter.  `times`, `prev_times` and
`tmpbuf` are the contents the uninitialised locals start with.  `none`: `main`
returns 1. -/
def startup {F : Type} (lib : CLib F) (fopen_result : Option Conn) (debugmode : Bool)
    (banner : Option (List Char)) (times : Int → F) (prev_times : Nat → Int → F)
    (tmpbuf : List Char) (reply : Option (List Char)) : Option (Session F) :=
  match open_timer fopen_result (!debugmode) with
  | none => none
  | some port =>
    if init_timer banner = 0 then none
    else
      some { port := port, debugmode := debugmode, lanes := init_timer banner,
             times := times,
             prev_times := fun j i =>
               if 0 ≤ i ∧ i < 4 ∧ 4 * (j : Int) + i < 3 * (MAX_LANES : Int) then lib.zero
               else prev_times j i,
             prev_head := 0,
             tmpbuf := match reply with
               | some answer => answer
               | none => tmpbuf }

/-! ## Vocabulary for statements about the session loop -/

/-- The time vector a round's line decodes to on `lanes` lanes. -/
def round_vector {F : Type} (lib : CLib F) (lanes : Nat) (r : Round) : List F :=
  time_vector lanes (get_times lib r.line lanes (fun _ => lib.zero) false).2

/-- A round is a good race when `get_times` returns a positive value on it. -/
def round_good {F : Type} (lib : CLib F) (lanes : Nat) (r : Round) : Prop :=
  0 < (get_times lib r.line lanes (fun _ => lib.zero) false).1

instance {F : Type} (lib : CLib F) (lanes : Nat) (r : Round) :
    Decidable (round_good lib lanes r) :=
  inferInstanceAs (Decidable (0 < (get_times lib r.line lanes (fun _ => lib.zero) false).1))

/-- The operator answers the prompt of the round with a line that holds neither
'x' nor 'X', so the loop goes on. -/
def stays (r : Round) : Bool :=
  match r.reply with
  | some answer => !((strchr answer 'x').isSome || (strchr answer 'X').isSome)
  | none => false

/-- Row `k` (0, 1, 2) that the previous results of a good race are expected to
show, when that race is the last of a run of good races with the given time
vectors (oldest first) that started with history `prev_times` and write
position `prev_head`: the slot read, and the vector of the race `k + 1` races
back, or the initial row of the slot when the run is shorter than that. -/
def expected_row {F : Type} (lanes : Nat) (prev_times : Nat → Int → F) (prev_head : Int)
    (vectors : List (List F)) (k : Nat) : Int × List F :=
  ((prev_head + (vectors.length : Int) + 2 - (k : Int)) % 4,
   (vectors.reverse[k + 1]?).getD
     (previous_row lanes prev_times ((prev_head + (vectors.length : Int) + 2 - (k : Int)) % 4)))

/-- A session on two lanes with a cleared history, to run the loop on concrete
rounds. -/
def demo_session : Session ℚ :=
  { port := 1, debugmode := false, lanes := 2, times := fun _ => 0,
    prev_times := fun _ _ => 0, prev_head := 0, tmpbuf := [] }

/-- A round in which the given line is read from the timer and the operator
presses Enter. -/
def demo_round (line : String) : Round :=
  { line := some line.toList, attempts := [], reply := some ['\n'] }

/-- Number of good races among the iterations shown: those in which
`display_winner` was called. -/
def good_count {F : Type} (shown : List (Display F)) : Nat :=
  (shown.filter (fun d => d.winner.isSome)).length

/-- Rows of a four-slot ring after the given vectors were written to it one
after the other, the first at slot `head`, each next one slot further
(modulo 4): `pushed_rows rows head vectors i` is the row of slot `i`. -/
def pushed_rows {F : Type} (rows : Int → List F) (head : Int) :
    List (List F) → Int → List F
  | [], i => rows i
  | e :: es, i => pushed_rows (fun k => if k = head then e else rows k) ((head + 1) % 4) es i

/-! ## Theorems: `init_timer` -/

theorem strrchr_isSome (s : List Char) (c : Char) :
    (strrchr s c).isSome = decide (c ∈ s) := by
  unfold strrchr
  simp [List.indexOf?, List.findIdx?_isSome, List.any_eq]

theorem init_timer_some (line : List Char) :
    init_timer (some line) =
      if '8' ∈ line then 8 else if '4' ∈ line then 4 else if '2' ∈ line then 2 else 0 := by
  simp [init_timer, strrchr_isSome]

/-- C1: for a banner line that was read, `init_timer` is 8 when the line holds
an '8', else 4 when it holds a '4', else 2 when it holds a '2', wherever the
digits stand; the banner "SuperDuper Timer v9.3 - 4 Lanes found" gives 4, and a
line in which an '8' is followed later by a '4' gives 8. -/
theorem init_timer_precedence (line before between after : List Char) :
    init_timer (some line) =
        (if '8' ∈ line then 8 else if '4' ∈ line then 4 else if '2' ∈ line then 2 else 0)
      ∧ init_timer (some "SuperDuper Timer v9.3 - 4 Lanes found".toList) = 4
      ∧ init_timer (some (before ++ '8' :: (between ++ '4' :: after))) = 8 := by
  refine ⟨init_timer_some line, by decide, ?_⟩
  rw [init_timer_some]
  simp

/-- C2: for a banner line that was read, `init_timer` returns 0 exactly when
the line holds none of '8', '4', '2' (as for "no digits here"), and its result
is always one of 0, 2, 4, 8, so a result that is not the error is in {2, 4, 8}. -/
theorem init_timer_unparseable (line : List Char) :
    (init_timer (some line) = 0 ↔ ('8' ∉ line ∧ '4' ∉ line ∧ '2' ∉ line))
      ∧ init_timer (some "no digits here".toList) = 0
      ∧ (init_timer (some line) = 0 ∨ init_timer (some line) = 2
          ∨ init_timer (some line) = 4 ∨ init_timer (some line) = 8) := by
  refine ⟨?_, by decide, ?_⟩
  · rw [init_timer_some]
    by_cases h8 : '8' ∈ line <;> by_cases h4 : '4' ∈ line <;> by_cases h2 : '2' ∈ line <;>
      simp [h8, h4, h2]
  · rw [init_timer_some]
    by_cases h8 : '8' ∈ line <;> by_cases h4 : '4' ∈ line <;> by_cases h2 : '2' ∈ line <;>
      simp [h8, h4, h2]

/-! ## Theorems: `get_times` -/

theorem get_times_loop_eq {F : Type} (lib : CLib F) (remaining : Nat) :
    ∀ (i : Nat) (next : List Char) (retval : Int) (results : Int → F),
      get_times_loop lib remaining i next retval results =
        ((if i = 0 then ((line_pairs lib remaining next).head?.map Prod.fst).getD retval
          else retval),
         apply_stores results (stored_pairs lib remaining next)) := by
  induction remaining with
  | zero =>
    intro i next retval results
    simp [get_times_loop, line_pairs, stored_pairs, apply_stores]
  | succ r ih =>
    intro i next retval results
    rw [get_times_loop]
    by_cases hz : lib.is_zero (lib.strtof (lib.strtol next).2).1 = true
    · simp [hz, line_pairs, stored_pairs, apply_stores, read_pair, List.takeWhile]
    · simp only [hz]
      rw [ih]
      simp [line_pairs, stored_pairs, apply_stores, read_pair, List.takeWhile, hz]

theorem get_times_some {F : Type} (lib : CLib F) (line : List Char) (lanes : Nat)
    (results : Int → F) (debug : Bool) :
    get_times lib (some line) lanes results debug =
      (((line_pairs lib lanes line).head?.map Prod.fst).getD 0,
       apply_stores (memset_floats lib.zero results lanes) (stored_pairs lib lanes line)) := by
  simp [get_times, get_times_loop_eq]

theorem apply_stores_cons {F : Type} (results : Int → F) (p : Int × F)
    (pairs : List (Int × F)) :
    apply_stores results (p :: pairs) =
      apply_stores (Function.update results (p.1 - 1) p.2) pairs := rfl

theorem apply_stores_other {F : Type} (pairs : List (Int × F)) :
    ∀ (results : Int → F) (j : Int), (∀ p ∈ pairs, p.1 - 1 ≠ j) →
      apply_stores results pairs j = results j := by
  induction pairs with
  | nil => intro results j _; rfl
  | cons q qs ih =>
    intro results j h
    rw [apply_stores_cons, ih _ _ (fun p hp => h p (List.mem_cons_of_mem _ hp))]
    have hq : j ≠ q.1 - 1 := fun e => h q (List.mem_cons_self _ _) e.symm
    simp [Function.update, hq]

theorem apply_stores_mem {F : Type} (pairs : List (Int × F)) :
    ∀ (results : Int → F), (pairs.map Prod.fst).Nodup → ∀ p ∈ pairs,
      apply_stores results pairs (p.1 - 1) = p.2 := by
  induction pairs with
  | nil => intro results _ p hp; simp at hp
  | cons q qs ih =>
    intro results hnd p hp
    rw [List.map_cons, List.nodup_cons] at hnd
    rw [apply_stores_cons]
    rcases List.mem_cons.mp hp with rfl | hmem
    · rw [apply_stores_other]
      · simp
      · intro r hr e
        apply hnd.1
        have : r.1 = p.1 := by omega
        rw [← this]
        exact List.mem_map_of_mem _ hr
    · exact ih _ hnd.2 p hmem

theorem takeWhile_eq_take {α : Type} (f : α → Bool) :
    ∀ (l : List α) (k : Nat), (∀ x ∈ l.take k, f x = true) →
      (∀ x, l[k]? = some x → f x = false) → l.takeWhile f = l.take k := by
  intro l
  induction l with
  | nil => intro k _ _; simp
  | cons a as ih =>
    intro k h1 h2
    cases k with
    | zero =>
      have := h2 a (by simp)
      simp [List.takeWhile, this]
    | succ k =>
      have ha : f a = true := h1 a (by simp)
      simp only [List.takeWhile, ha, List.take_succ_cons]
      rw [ih k (fun x hx => h1 x (by simp [hx])) (fun x hx => h2 x (by simpa using hx))]

theorem time_vector_length {F : Type} (lanes : Nat) (results : Int → F) :
    (time_vector lanes results).length = lanes := by
  simp [time_vector]

theorem time_vector_getElem? {F : Type} (lanes : Nat) (results : Int → F) (j : Nat)
    (hj : j < lanes) : (time_vector lanes results)[j]? = some (results (j : Int)) := by
  simp [time_vector, List.getElem?_map, List.getElem?_range hj]

theorem time_vector_congr {F : Type} (lanes : Nat) (a b : Int → F)
    (h : ∀ j : Nat, j < lanes → a (j : Int) = b (j : Int)) :
    time_vector lanes a = time_vector lanes b := by
  unfold time_vector
  apply List.map_congr_left
  intro j hj
  exact h j (List.mem_range.mp hj)

theorem apply_stores_congr {F : Type} (pairs : List (Int × F)) :
    ∀ (a b : Int → F) (j : Int), a j = b j →
      apply_stores a pairs j = apply_stores b pairs j := by
  induction pairs with
  | nil => intro a b j h; exact h
  | cons q qs ih =>
    intro a b j h
    rw [apply_stores_cons, apply_stores_cons]
    apply ih
    by_cases e : j = q.1 - 1
    · simp [Function.update, e]
    · simp [Function.update, e, h]

/-- The time vector and the return value of a `get_times` that read a line do
not depend on what the buffer held before. -/
theorem get_times_fresh {F : Type} (lib : CLib F) (line : List Char) (lanes : Nat)
    (results : Int → F) (debug : Bool) :
    (get_times lib (some line) lanes results debug).1 =
        (get_times lib (some line) lanes (fun _ => lib.zero) false).1
      ∧ time_vector lanes (get_times lib (some line) lanes results debug).2 =
          time_vector lanes (get_times lib (some line) lanes (fun _ => lib.zero) false).2 := by
  rw [get_times_some, get_times_some]
  refine ⟨rfl, time_vector_congr _ _ _ ?_⟩
  intro j hj
  apply apply_stores_congr
  simp [memset_floats, hj]

/-- C4: let a line that was read consist, for lane count `n`, of `n` pairs with
pairwise distinct lane indices in `1..n`; let the times of the first `k` pairs
be nonzero and, if `k < n`, the time of pair `k` be zero.  Then `get_times`
returns a time vector of length `n` whose entry `l - 1` is `t` for each of the
first `k` pairs `(l, t)` and whose other entries are zero, and it returns the
lane index of the first pair. -/
theorem get_times_decodes {F : Type} (lib : CLib F) (n k : Nat) (line : List Char)
    (results : Int → F) (debug : Bool) (hk : k ≤ n)
    (hrange : ∀ p ∈ line_pairs lib n line, 1 ≤ p.1 ∧ p.1 ≤ (n : Int))
    (hdistinct : ((line_pairs lib n line).map Prod.fst).Nodup)
    (hnonzero : ∀ p ∈ (line_pairs lib n line).take k, lib.is_zero p.2 = false)
    (hzero : ∀ p, (line_pairs lib n line)[k]? = some p → lib.is_zero p.2 = true) :
    (time_vector n (get_times lib (some line) n results debug).2).length = n
      ∧ (∀ p ∈ (line_pairs lib n line).take k,
          (time_vector n (get_times lib (some line) n results debug).2)[(p.1 - 1).toNat]?
            = some p.2)
      ∧ (∀ j, j < n → (∀ p ∈ (line_pairs lib n line).take k, (p.1 - 1).toNat ≠ j) →
          (time_vector n (get_times lib (some line) n results debug).2)[j]? = some lib.zero)
      ∧ (∀ p, (line_pairs lib n line)[0]? = some p →
          (get_times lib (some line) n results debug).1 = p.1) := by
  have hs : stored_pairs lib n line = (line_pairs lib n line).take k := by
    unfold stored_pairs
    apply takeWhile_eq_take
    · intro x hx
      simp [hnonzero x hx]
    · intro x hx
      simp [hzero x hx]
  have hsub : ∀ p ∈ (line_pairs lib n line).take k, p ∈ line_pairs lib n line :=
    fun p hp => List.mem_of_mem_take hp
  have hnd : (((line_pairs lib n line).take k).map Prod.fst).Nodup := by
    rw [List.map_take]
    exact (List.take_sublist _ _).nodup hdistinct
  rw [get_times_some, hs]
  refine ⟨time_vector_length _ _, ?_, ?_, ?_⟩
  · intro p hp
    have hr := hrange p (hsub p hp)
    have hlt : (p.1 - 1).toNat < n := by omega
    rw [time_vector_getElem? _ _ _ hlt]
    have hcast : (((p.1 - 1).toNat : Nat) : Int) = p.1 - 1 := by omega
    dsimp only
    rw [hcast, apply_stores_mem _ _ hnd p hp]
  · intro j hj hother
    rw [time_vector_getElem? _ _ _ hj]
    dsimp only
    rw [apply_stores_other]
    · simp [memset_floats, hj]
    · intro p hp e
      apply hother p hp
      omega
  · intro p hp
    rw [List.head?_eq_getElem?, hp]
    rfl

/-- Witness of C4: four lanes; lanes 2 and 1 finish, then a zero time. -/
theorem get_times_decodes_witness :
    line_pairs textlib 4 "2 3.25 1 3.5 3 0.0 4 4.0".toList
        = [(2, mkRat 13 4), (1, mkRat 7 2), (3, 0), (4, 4)]
      ∧ (time_vector 4 (get_times textlib (some "2 3.25 1 3.5 3 0.0 4 4.0".toList) 4
          (fun _ => 9) false).2).length = 4
      ∧ (time_vector 4 (get_times textlib (some "2 3.25 1 3.5 3 0.0 4 4.0".toList) 4
          (fun _ => 9) false).2)[1]? = some (mkRat 13 4)
      ∧ (time_vector 4 (get_times textlib (some "2 3.25 1 3.5 3 0.0 4 4.0".toList) 4
          (fun _ => 9) false).2)[0]? = some (mkRat 7 2)
      ∧ (time_vector 4 (get_times textlib (some "2 3.25 1 3.5 3 0.0 4 4.0".toList) 4
          (fun _ => 9) false).2)[2]? = some 0
      ∧ (time_vector 4 (get_times textlib (some "2 3.25 1 3.5 3 0.0 4 4.0".toList) 4
          (fun _ => 9) false).2)[3]? = some 0
      ∧ (get_times textlib (some "2 3.25 1 3.5 3 0.0 4 4.0".toList) 4
          (fun _ => 9) false).1 = 2 := by
  have hp : line_pairs textlib 4 "2 3.25 1 3.5 3 0.0 4 4.0".toList
      = [(2, mkRat 13 4), (1, mkRat 7 2), (3, 0), (4, 4)] := by decide
  have h := get_times_decodes textlib 4 2 "2 3.25 1 3.5 3 0.0 4 4.0".toList
    (fun _ => 9) false (by decide) (by rw [hp]; decide) (by rw [hp]; decide)
    (by rw [hp]; decide) (by rw [hp]; intro p e; cases e; decide)
  exact ⟨hp, h.1,
    h.2.1 (2, mkRat 13 4) (by rw [hp]; decide),
    h.2.1 (1, mkRat 7 2) (by rw [hp]; decide),
    h.2.2.1 2 (by decide) (by rw [hp]; decide),
    h.2.2.1 3 (by decide) (by rw [hp]; decide),
    h.2.2.2 (2, mkRat 13 4) (by rw [hp]; rfl)⟩

/-- C5, as the code has it: with lane count 4 the line
"1 3.2001 2 3.5512 3 0.0000 4 4.0012" gives winner lane 1 and the time vector
[3.2001, 3.5512, 0, 0]; decoding stops at the zero time of the third pair. -/
theorem get_times_example (results : Int → ℚ) (debug : Bool) :
    (get_times textlib (some "1 3.2001 2 3.5512 3 0.0000 4 4.0012".toList) 4
        results debug).1 = 1
      ∧ time_vector 4 (get_times textlib (some "1 3.2001 2 3.5512 3 0.0000 4 4.0012".toList) 4
          results debug).2 = [3.2001, 3.5512, 0, 0] := by
  have h := get_times_fresh textlib "1 3.2001 2 3.5512 3 0.0000 4 4.0012".toList 4
    results debug
  rw [h.1, h.2]
  have hv : [(3.2001 : ℚ), 3.5512, 0, 0] = [mkRat 32001 10000, mkRat 35512 10000, 0, 0] := by
    norm_num
  rw [hv]
  decide

/-- Counterexample to C5 as stated: the time vector decoded from
"1 3.2001 2 3.5512 3 0.0000 4 4.0012" is not [3.2001, 3.5512, 0, 4.0012]; its
last entry is 0. -/
theorem get_times_example_counterexample :
    time_vector 4 (get_times textlib (some "1 3.2001 2 3.5512 3 0.0000 4 4.0012".toList) 4
        (fun _ => 0) false).2 ≠ [3.2001, 3.5512, 0, 4.0012] := by
  have hv : [(3.2001 : ℚ), 3.5512, 0, 4.0012]
      = [mkRat 32001 10000, mkRat 35512 10000, 0, mkRat 40012 10000] := by
    norm_num
  rw [hv]
  decide

/-! ## Theorems: `reinit_timer` -/

theorem reinit_retry_some (config : Bool) (lanes_expected : Nat) (attempts : List Attempt) :
    ∀ (confirmations opens : Nat) (closed : List Conn) (r : Reconnected),
      reinit_retry config lanes_expected attempts confirmations opens closed = some r →
      confirmations < r.confirmations ∧
      ∃ a, attempts[r.confirmations - confirmations - 1]? = some a
        ∧ a.fopen_result = some r.fd ∧ init_timer a.banner = lanes_expected := by
  induction attempts with
  | nil => intro c o cl r h; simp [reinit_retry] at h
  | cons a rest ih =>
    intro c o cl r h
    rw [reinit_retry] at h
    cases hf : a.fopen_result with
    | none =>
      simp only [hf, open_timer] at h
      obtain ⟨h1, b, hb, hb2⟩ := ih _ _ _ _ h
      refine ⟨by omega, b, ?_, hb2⟩
      have e : r.confirmations - c - 1 = (r.confirmations - (c + 1) - 1) + 1 := by omega
      rw [e, List.getElem?_cons_succ]
      exact hb
    | some fd =>
      simp only [hf, open_timer] at h
      by_cases hl : init_timer a.banner = lanes_expected
      · simp only [hl, ne_eq, not_true_eq_false, if_false, Option.some.injEq] at h
        subst h
        exact ⟨by simp, a, by simp, hf, hl⟩
      · simp only [hl, ne_eq, not_false_eq_true, if_true] at h
        obtain ⟨h1, b, hb, hb2⟩ := ih _ _ _ _ h
        refine ⟨by omega, b, ?_, hb2⟩
        have e : r.confirmations - c - 1 = (r.confirmations - (c + 1) - 1) + 1 := by omega
        rw [e, List.getElem?_cons_succ]
        exact hb

theorem reinit_retry_none (config : Bool) (lanes_expected : Nat) (attempts : List Attempt) :
    ∀ (confirmations opens : Nat) (closed : List Conn),
      (∀ b ∈ attempts, b.fopen_result = none ∨ init_timer b.banner ≠ lanes_expected) →
      reinit_retry config lanes_expected attempts confirmations opens closed = none := by
  induction attempts with
  | nil => intro c o cl _; rfl
  | cons a rest ih =>
    intro c o cl h
    rw [reinit_retry]
    have hrest := fun c o cl => ih c o cl (fun b hb => h b (List.mem_cons_of_mem _ hb))
    cases hf : a.fopen_result with
    | none => simp only [open_timer]; exact hrest _ _ _
    | some fd =>
      have hl : init_timer a.banner ≠ lanes_expected := by
        rcases h a (List.mem_cons_self _ _) with h1 | h1
        · rw [hf] at h1; cases h1
        · exact h1
      simp only [open_timer, hl, ne_eq, not_false_eq_true, if_true]
      exact hrest _ _ _

theorem reinit_retry_count (config : Bool) (lanes_expected : Nat) (attempts : List Attempt) :
    ∀ (m confirmations opens : Nat) (closed : List Conn) (a : Attempt) (fd : Conn),
      1 ≤ m → attempts[m - 1]? = some a → a.fopen_result = some fd →
      init_timer a.banner = lanes_expected →
      (∀ b ∈ attempts.take (m - 1),
        b.fopen_result = none ∨ init_timer b.banner ≠ lanes_expected) →
      ∃ r, reinit_retry config lanes_expected attempts confirmations opens closed = some r
        ∧ r.fd = fd ∧ r.confirmations = confirmations + m ∧ r.opens = opens + m := by
  induction attempts with
  | nil => intro m c o cl a fd _ ha; simp at ha
  | cons x rest ih =>
    intro m c o cl a fd hm ha hopen hl hearlier
    rw [reinit_retry]
    by_cases h1 : m = 1
    · subst h1
      simp only [Nat.sub_self, List.getElem?_cons_zero, Option.some.injEq] at ha
      subst ha
      simp [open_timer, hopen, hl]
    · have e : m - 1 = (m - 1 - 1) + 1 := by omega
      rw [e, List.getElem?_cons_succ] at ha
      rw [e, List.take_succ_cons] at hearlier
      have hx := hearlier x (List.mem_cons_self _ _)
      obtain ⟨r, hr, hr1, hr2, hr3⟩ := ih (m - 1) (c + 1) (o + 1) cl a fd (by omega) ha hopen hl
        (fun b hb => hearlier b (List.mem_cons_of_mem _ hb))
      obtain ⟨r', hr', hr1', hr2', hr3'⟩ := ih (m - 1) (c + 1) (o + 1) (cl ++ [x.fopen_result.getD 0])
        a fd (by omega) ha hopen hl (fun b hb => hearlier b (List.mem_cons_of_mem _ hb))
      cases hf : x.fopen_result with
      | none =>
        simp only [open_timer]
        exact ⟨r, hr, hr1, by omega, by omega⟩
      | some fd0 =>
        have hl0 : init_timer x.banner ≠ lanes_expected := by
          rcases hx with h2 | h2
          · rw [hf] at h2; cases h2
          · exact h2
        simp only [open_timer, hl0, ne_eq, not_false_eq_true, if_true]
        rw [hf] at hr'
        exact ⟨r', hr', hr1', by omega, by omega⟩

/-- C9: for an expected lane count in {2, 4, 8} and any sequence of reconnect
attempts, a `reinit_timer` that returns does so on an attempt whose port opened
and whose banner was read and parsed to exactly `lanes_expected`, and the handle
returned is the one opened on that attempt. -/
theorem reinit_timer_never_adopts (port : Conn) (config : Bool) (lanes_expected : Nat)
    (attempts : List Attempt) (r : Reconnected)
    (hlanes : lanes_expected = 2 ∨ lanes_expected = 4 ∨ lanes_expected = 8)
    (h : reinit_timer port config lanes_expected attempts = some r) :
    1 ≤ r.confirmations ∧
    ∃ a line, attempts[r.confirmations - 1]? = some a
      ∧ open_timer a.fopen_result config = some r.fd
      ∧ a.banner = some line ∧ init_timer (some line) = lanes_expected := by
  obtain ⟨h1, a, ha, hfd, hl⟩ := reinit_retry_some config lanes_expected attempts 0 0 [port] r h
  refine ⟨h1, a, ?_⟩
  cases hb : a.banner with
  | none =>
    rw [hb] at hl
    simp only [init_timer] at hl
    omega
  | some line =>
    refine ⟨line, by simpa using ha, by simp [open_timer, hfd], rfl, ?_⟩
    rw [← hb]
    exact hl

/-- Witness of C9: the port opens with a two-lane banner, then with a four-lane
banner; four lanes are expected. -/
theorem reinit_timer_never_adopts_witness :
    reinit_timer 1 true 4
        [⟨some 5, some "Timer - 2 Lanes found".toList⟩,
         ⟨some 6, some "Timer - 4 Lanes found".toList⟩] = some ⟨6, 2, 2, [1, 5]⟩
      ∧ ∃ a line,
        [(⟨some 5, some "Timer - 2 Lanes found".toList⟩ : Attempt),
         ⟨some 6, some "Timer - 4 Lanes found".toList⟩][2 - 1]? = some a
        ∧ open_timer a.fopen_result true = some 6
        ∧ a.banner = some line ∧ init_timer (some line) = 4 :=
  ⟨by decide,
   (reinit_timer_never_adopts 1 true 4
      [⟨some 5, some "Timer - 2 Lanes found".toList⟩,
       ⟨some 6, some "Timer - 4 Lanes found".toList⟩] ⟨6, 2, 2, [1, 5]⟩
      (by decide) (by decide)).2⟩

/-- C10: when the first reconnect attempt that both opens and reports the
expected lane count is the `m`-th, `reinit_timer` returns the handle opened on
it after exactly `m` operator confirmations and `m` calls of `open_timer`; after
any smaller number of attempts it is still waiting for the operator. -/
theorem reinit_timer_attempt_count (port : Conn) (config : Bool) (lanes_expected : Nat)
    (attempts : List Attempt) (m : Nat) (a : Attempt) (fd : Conn)
    (hm : 1 ≤ m) (ha : attempts[m - 1]? = some a) (hopen : a.fopen_result = some fd)
    (hlanes : init_timer a.banner = lanes_expected)
    (hearlier : ∀ b ∈ attempts.take (m - 1),
      b.fopen_result = none ∨ init_timer b.banner ≠ lanes_expected) :
    (∃ r, reinit_timer port config lanes_expected attempts = some r
        ∧ r.fd = fd ∧ r.confirmations = m ∧ r.opens = m)
      ∧ ∀ k, k < m → reinit_timer port config lanes_expected (attempts.take k) = none := by
  constructor
  · obtain ⟨r, hr, h1, h2, h3⟩ := reinit_retry_count config lanes_expected attempts m 0 0 [port]
      a fd hm ha hopen hlanes hearlier
    exact ⟨r, hr, h1, by omega, by omega⟩
  · intro k hk
    apply reinit_retry_none
    intro b hb
    apply hearlier b
    have hsub : (attempts.take k).Sublist (attempts.take (m - 1)) := by
      have : k = min k (m - 1) := by omega
      rw [this, ← List.take_take]
      exact List.take_sublist _ _
    exact hsub.subset hb

/-- Witness of C10: the port fails to open twice and then opens with the
expected four lanes; recovery ends after exactly three confirmations. -/
theorem reinit_timer_attempt_count_witness :
    (∃ r, reinit_timer 1 true 4
        [⟨none, none⟩, ⟨none, none⟩,
         ⟨some 6, some "SuperDuper Timer v9.3 - 4 Lanes found".toList⟩] = some r
        ∧ r.fd = 6 ∧ r.confirmations = 3 ∧ r.opens = 3)
      ∧ ∀ k, k < 3 → reinit_timer 1 true 4
        (([⟨none, none⟩, ⟨none, none⟩,
          ⟨some 6, some "SuperDuper Timer v9.3 - 4 Lanes found".toList⟩] : List Attempt).take k)
          = none :=
  reinit_timer_attempt_count 1 true 4
    [⟨none, none⟩, ⟨none, none⟩,
     ⟨some 6, some "SuperDuper Timer v9.3 - 4 Lanes found".toList⟩] 3
    ⟨some 6, some "SuperDuper Timer v9.3 - 4 Lanes found".toList⟩ 6
    (by decide) (by decide) rfl (by decide) (by decide)

/-! ## Theorems: the history of previous results -/

theorem get_times_retval_fresh {F : Type} (lib : CLib F) (fd : Option (List Char))
    (lanes : Nat) (results : Int → F) (debug : Bool) :
    (get_times lib fd lanes results debug).1 =
      (get_times lib fd lanes (fun _ => lib.zero) false).1 := by
  cases fd with
  | none => rfl
  | some line => exact (get_times_fresh lib line lanes results debug).1

theorem get_times_vector_fresh {F : Type} (lib : CLib F) (r : Round) (lanes : Nat)
    (results : Int → F) (debug : Bool) (hgood : round_good lib lanes r) :
    time_vector lanes (get_times lib r.line lanes results debug).2 =
      round_vector lib lanes r := by
  unfold round_vector
  unfold round_good at hgood
  cases hl : r.line with
  | none => rw [hl] at hgood; simp [get_times] at hgood
  | some line => exact (get_times_fresh lib line lanes results debug).2

theorem previous_row_save_times {F : Type} (lanes : Nat) (times : Int → F)
    (prev_times : Nat → Int → F) (prev_head i : Int) :
    previous_row lanes (save_times lanes times prev_times prev_head) i =
      if i = prev_head then time_vector lanes times else previous_row lanes prev_times i := by
  unfold previous_row save_times time_vector
  by_cases h : i = prev_head
  · simp only [h, if_true]
    apply List.map_congr_left
    intro j hj
    simp [List.mem_range.mp hj]
  · simp [h]

theorem previous_loop_done {F : Type} (lanes : Nat) (prev_times : Nat → Int → F)
    (prev_head : Int) (fuel : Nat) :
    previous_loop lanes prev_times prev_head fuel prev_head = some [] := by
  cases fuel <;> simp [previous_loop]

theorem previous_loop_rows {F : Type} (lanes : Nat) (prev_times : Nat → Int → F)
    (prev_head : Int) (fuel : Nat) (hfuel : 3 ≤ fuel)
    (hhead : 0 ≤ prev_head ∧ prev_head < 4) :
    previous_loop lanes prev_times prev_head fuel
        (if prev_head - 1 < 0 then 3 else prev_head - 1) =
      some [((prev_head + 3) % 4, previous_row lanes prev_times ((prev_head + 3) % 4)),
            ((prev_head + 2) % 4, previous_row lanes prev_times ((prev_head + 2) % 4)),
            ((prev_head + 1) % 4, previous_row lanes prev_times ((prev_head + 1) % 4))] := by
  obtain ⟨f, rfl⟩ : ∃ f, fuel = f + 3 := ⟨fuel - 3, by omega⟩
  have h : prev_head = 0 ∨ prev_head = 1 ∨ prev_head = 2 ∨ prev_head = 3 := by omega
  rcases h with rfl | rfl | rfl | rfl <;>
    simp [previous_loop, previous_loop_done]

theorem loop_iteration_good {F : Type} (lib : CLib F) (fuel : Nat) (s : Session F) (r : Round)
    (hfuel : 3 ≤ fuel) (hhead : 0 ≤ s.prev_head ∧ s.prev_head < 4)
    (hbounds : times_in_bounds lib r.line s.lanes = true)
    (hgood : round_good lib s.lanes r) :
    ∃ s' d, loop_iteration lib fuel s r = some (s', d)
      ∧ s'.lanes = s.lanes ∧ s'.prev_head = (s.prev_head + 1) % 4
      ∧ (∀ i, previous_row s.lanes s'.prev_times i =
          if i = s.prev_head then round_vector lib s.lanes r
          else previous_row s.lanes s.prev_times i)
      ∧ d.times = some (round_vector lib s.lanes r)
      ∧ d.previous = some
          [((s.prev_head + 3) % 4, previous_row s.lanes s.prev_times ((s.prev_head + 3) % 4)),
           ((s.prev_head + 2) % 4, previous_row s.lanes s.prev_times ((s.prev_head + 2) % 4)),
           ((s.prev_head + 1) % 4, previous_row s.lanes s.prev_times ((s.prev_head + 1) % 4))]
      ∧ (stays r = true → d.exit = false) := by
  have htmp : 0 < (get_times lib r.line s.lanes s.times s.debugmode).1 := by
    rw [get_times_retval_fresh]; exact hgood
  have hvec := get_times_vector_fresh lib r s.lanes s.times s.debugmode hgood
  have hnot : ¬ (get_times lib r.line s.lanes s.times s.debugmode).1 < 0 := by omega
  have hrows := fun prev => previous_loop_rows (F := F) s.lanes prev s.prev_head fuel hfuel hhead
  simp only [loop_iteration, good_race, gt_iff_lt, htmp, if_true, hrows, hnot, if_false,
    hbounds, Bool.true_eq_false]
  have hsave : ∀ i, previous_row s.lanes
      (save_times s.lanes (get_times lib r.line s.lanes s.times s.debugmode).2
        s.prev_times s.prev_head) i =
      if i = s.prev_head then round_vector lib s.lanes r
      else previous_row s.lanes s.prev_times i := by
    intro i
    rw [previous_row_save_times, hvec]
  have h3 : (s.prev_head + 3) % 4 ≠ s.prev_head := by omega
  have h2 : (s.prev_head + 2) % 4 ≠ s.prev_head := by omega
  have h1 : (s.prev_head + 1) % 4 ≠ s.prev_head := by omega
  have hh : (if s.prev_head + 1 = 4 then 0 else s.prev_head + 1) = (s.prev_head + 1) % 4 := by
    split <;> omega
  by_cases hc : ((strchr (match r.reply with
        | some answer => answer
        | none => s.tmpbuf) 'x').isSome ||
      (strchr (match r.reply with
        | some answer => answer
        | none => s.tmpbuf) 'X').isSome) = true
  · rw [if_pos hc]
    refine ⟨_, _, rfl, rfl, hh, hsave, congrArg some hvec, ?_, ?_⟩
    · simp only [hsave, h3, h2, h1, if_false]
    · intro hst
      exfalso
      unfold stays at hst
      cases hr : r.reply with
      | none => rw [hr] at hst; simp at hst
      | some answer =>
        rw [hr] at hst hc
        simp only [Bool.not_eq_true'] at hst
        simp only [hst] at hc
        cases hc
  · rw [if_neg hc]
    refine ⟨_, _, rfl, rfl, hh, hsave, congrArg some hvec, ?_, ?_⟩
    · simp only [hsave, h3, h2, h1, if_false]
    · intro _; rfl

theorem expected_row_cons {F : Type} (lanes : Nat) (prev prev1 : Nat → Int → F) (h : Int)
    (e0 : List F) (es : List (List F)) (k : Nat) (hk : k ≤ 2) (hh : 0 ≤ h ∧ h < 4)
    (hne : es ≠ [])
    (hprev1 : ∀ i, previous_row lanes prev1 i =
      if i = h then e0 else previous_row lanes prev i) :
    expected_row lanes prev1 ((h + 1) % 4) es k = expected_row lanes prev h (e0 :: es) k := by
  have hlen : 1 ≤ es.length := by
    cases es with
    | nil => exact absurd rfl hne
    | cons a as => simp
  have hslot : ((h + 1) % 4 + (es.length : Int) + 2 - (k : Int)) % 4 =
      (h + ((e0 :: es).length : Int) + 2 - (k : Int)) % 4 := by
    simp only [List.length_cons]
    push_cast
    omega
  have hcases : (k + 1 < es.length) ∨
      (k + 1 = es.length ∧ (h + ((e0 :: es).length : Int) + 2 - (k : Int)) % 4 = h) ∨
      (es.length < k + 1 ∧ (h + ((e0 :: es).length : Int) + 2 - (k : Int)) % 4 ≠ h) := by
    simp only [List.length_cons]
    push_cast
    omega
  unfold expected_row
  rw [hslot]
  generalize (h + ((e0 :: es).length : Int) + 2 - (k : Int)) % 4 = slot at hcases
  refine Prod.ext rfl ?_
  simp only [List.reverse_cons]
  rcases hcases with h1 | ⟨h2, hs⟩ | ⟨h3, hs⟩
  · rw [List.getElem?_append_left (by simpa using h1)]
    have hx : k + 1 < es.reverse.length := by simpa using h1
    rw [List.getElem?_eq_getElem hx]
    rfl
  · rw [List.getElem?_append_right (by simp; omega)]
    rw [List.getElem?_eq_none (show es.reverse.length ≤ k + 1 by simp; omega)]
    simp [hs, hprev1, h2]
  · rw [List.getElem?_eq_none (show es.reverse.length ≤ k + 1 by simp; omega)]
    rw [List.getElem?_eq_none (show (es.reverse ++ [e0]).length ≤ k + 1 by simp; omega)]
    simp [hs, hprev1]

/-- A run of good races, the operator going on after each but possibly the
last: the loop runs through all of them, and the last one shows its own time
vector and, as previous results, the three rows `expected_row` describes. -/
theorem session_loop_history {F : Type} (lib : CLib F) (fuel : Nat) (hfuel : 3 ≤ fuel)
    (rounds : List Round) :
    ∀ (s : Session F), rounds ≠ [] → (0 ≤ s.prev_head ∧ s.prev_head < 4) →
      (∀ r ∈ rounds, times_in_bounds lib r.line s.lanes = true) →
      (∀ r ∈ rounds, round_good lib s.lanes r) →
      (∀ r ∈ rounds.dropLast, stays r = true) →
      ∃ s' ds d, session_loop lib fuel s rounds = some (s', ds)
        ∧ ds.length = rounds.length
        ∧ ds.getLast? = some d
        ∧ d.times = (rounds.map (round_vector lib s.lanes)).getLast?
        ∧ d.previous = some
            [expected_row s.lanes s.prev_times s.prev_head
               (rounds.map (round_vector lib s.lanes)) 0,
             expected_row s.lanes s.prev_times s.prev_head
               (rounds.map (round_vector lib s.lanes)) 1,
             expected_row s.lanes s.prev_times s.prev_head
               (rounds.map (round_vector lib s.lanes)) 2] := by
  induction rounds with
  | nil => intro s h; exact absurd rfl h
  | cons r0 rest ih =>
    intro s _ hhead hbounds hgood hstay
    obtain ⟨s1, d0, hstep, hl, hh, hrow, ht, hp, hex⟩ :=
      loop_iteration_good lib fuel s r0 hfuel hhead (hbounds r0 (List.mem_cons_self _ _))
        (hgood r0 (List.mem_cons_self _ _))
    cases rest with
    | nil =>
      refine ⟨s1, [d0], d0, ?_, rfl, rfl, ?_, ?_⟩
      · simp [session_loop, hstep]
      · simp [ht]
      · have e3 : (s.prev_head + 1 + 2) % 4 = (s.prev_head + 3) % 4 := by omega
        have e2 : (s.prev_head + 1 + 2 - 1) % 4 = (s.prev_head + 2) % 4 := by omega
        rw [hp]
        simp [expected_row, e3, e2]
    | cons r1 rest' =>
      have hex0 : d0.exit = false := hex (hstay r0 (by simp [List.dropLast]))
      have hhead1 : 0 ≤ s1.prev_head ∧ s1.prev_head < 4 := by rw [hh]; omega
      obtain ⟨s', ds, d, hloop, hlen, hlast, hdt, hdp⟩ :=
        ih s1 (by simp) hhead1
          (by rw [hl]; intro r hr; exact hbounds r (List.mem_cons_of_mem _ hr))
          (by rw [hl]; intro r hr; exact hgood r (List.mem_cons_of_mem _ hr))
          (fun r hr => hstay r (by
            rw [List.dropLast_cons₂]
            exact List.mem_cons_of_mem _ hr))
      have hne : ds ≠ [] := by
        intro e
        rw [e] at hlen
        simp at hlen
      refine ⟨s', d0 :: ds, d, ?_, ?_, ?_, ?_, ?_⟩
      · rw [session_loop, hstep]
        simp [hex0, hloop]
      · simp [hlen]
      · obtain ⟨d1, ds1, rfl⟩ := List.exists_cons_of_ne_nil hne
        rw [List.getLast?_cons_cons]
        exact hlast
      · rw [hdt, hl]
        simp
      · rw [hdp, hl, hh]
        have hmapne : List.map (round_vector lib s.lanes) (r1 :: rest') ≠ [] := by simp
        simp only [List.map_cons _ r0]
        rw [expected_row_cons s.lanes s.prev_times s1.prev_times s.prev_head _ _ 0
              (by omega) hhead hmapne hrow,
            expected_row_cons s.lanes s.prev_times s1.prev_times s.prev_head _ _ 1
              (by omega) hhead hmapne hrow,
            expected_row_cons s.lanes s.prev_times s1.prev_times s.prev_head _ _ 2
              (by omega) hhead hmapne hrow]

/-- C6, as the code has it: after a run of at least four good races whose last
four time vectors are `a`, `b`, `c`, `d` (oldest first), the last race shows its
own vector `d` through `display_times` and prints, as previous results, the
three rows `c`, `b`, `a`: the newest entry is not part of the printed history.
(`hbounds`: every call of `get_times` stays inside `times`; `hstay`: the operator
goes on after each race but possibly the last.) -/
theorem history_after_wrap {F : Type} (lib : CLib F) (fuel : Nat) (s : Session F)
    (rounds : List Round) (older : List (List F)) (a b c d : List F)
    (hfuel : 3 ≤ fuel) (hhead : 0 ≤ s.prev_head ∧ s.prev_head < 4)
    (hvectors : rounds.map (round_vector lib s.lanes) = older ++ [a, b, c, d])
    (hbounds : ∀ r ∈ rounds, times_in_bounds lib r.line s.lanes = true)
    (hgood : ∀ r ∈ rounds, round_good lib s.lanes r)
    (hstay : ∀ r ∈ rounds.dropLast, stays r = true) :
    ∃ s' ds shown, session_loop lib fuel s rounds = some (s', ds)
      ∧ ds.length = rounds.length
      ∧ ds.getLast? = some shown
      ∧ shown.times = some d
      ∧ shown.previous.map (List.map Prod.snd) = some [c, b, a] := by
  have hne : rounds ≠ [] := by
    intro e
    rw [e] at hvectors
    simp at hvectors
  obtain ⟨s', ds, shown, h1, h2, h3, h4, h5⟩ :=
    session_loop_history lib fuel hfuel rounds s hne hhead hbounds hgood hstay
  refine ⟨s', ds, shown, h1, h2, h3, ?_, ?_⟩
  · rw [h4, hvectors]
    simp
  · rw [h5, hvectors]
    simp [expected_row]

/-- Witness of C6: five good races on two lanes, starting from a cleared
history; the fifth shows its own vector and, as previous results, the vectors
of the fourth, third and second. -/
theorem history_after_wrap_witness :
    ∃ s' ds shown,
      session_loop textlib 3 demo_session
          [demo_round "1 1.25 2 2.25", demo_round "2 1.5 1 2.5", demo_round "1 1.75 2 2.75",
           demo_round "2 1.125 1 2.0", demo_round "1 1.0 2 3.0"] = some (s', ds)
      ∧ ds.length = 5
      ∧ ds.getLast? = some shown
      ∧ shown.times = some (round_vector textlib 2 (demo_round "1 1.0 2 3.0"))
      ∧ shown.previous.map (List.map Prod.snd) = some
          [round_vector textlib 2 (demo_round "2 1.125 1 2.0"),
           round_vector textlib 2 (demo_round "1 1.75 2 2.75"),
           round_vector textlib 2 (demo_round "2 1.5 1 2.5")] :=
  history_after_wrap textlib 3 demo_session
    [demo_round "1 1.25 2 2.25", demo_round "2 1.5 1 2.5", demo_round "1 1.75 2 2.75",
     demo_round "2 1.125 1 2.0", demo_round "1 1.0 2 3.0"]
    [round_vector textlib 2 (demo_round "1 1.25 2 2.25")]
    (round_vector textlib 2 (demo_round "2 1.5 1 2.5"))
    (round_vector textlib 2 (demo_round "1 1.75 2 2.75"))
    (round_vector textlib 2 (demo_round "2 1.125 1 2.0"))
    (round_vector textlib 2 (demo_round "1 1.0 2 3.0"))
    (by decide) (by decide) rfl (by decide) (by decide) (by decide)

/-- Counterexample to C6 as stated: after five good races with vectors
`e1 .. e5` the previous results printed are `[e4, e3, e2]`, not
`[e5, e4, e3, e2]`. -/
theorem history_after_wrap_counterexample :
    ∃ s' ds shown,
      session_loop textlib 3 demo_session
          [demo_round "1 1.25 2 2.25", demo_round "2 1.5 1 2.5", demo_round "1 1.75 2 2.75",
           demo_round "2 1.125 1 2.0", demo_round "1 1.0 2 3.0"] = some (s', ds)
      ∧ ds.getLast? = some shown
      ∧ shown.previous.map (List.map Prod.snd) = some
          [round_vector textlib 2 (demo_round "2 1.125 1 2.0"),
           round_vector textlib 2 (demo_round "1 1.75 2 2.75"),
           round_vector textlib 2 (demo_round "2 1.5 1 2.5")]
      ∧ shown.previous.map (List.map Prod.snd) ≠ some
          [round_vector textlib 2 (demo_round "1 1.0 2 3.0"),
           round_vector textlib 2 (demo_round "2 1.125 1 2.0"),
           round_vector textlib 2 (demo_round "1 1.75 2 2.75"),
           round_vector textlib 2 (demo_round "2 1.5 1 2.5")] := by
  obtain ⟨s', ds, shown, h1, _, h3, _, h5⟩ :=
    session_loop_history textlib 3 (by decide)
      [demo_round "1 1.25 2 2.25", demo_round "2 1.5 1 2.5", demo_round "1 1.75 2 2.75",
       demo_round "2 1.125 1 2.0", demo_round "1 1.0 2 3.0"]
      demo_session (by simp) (by decide) (by decide) (by decide) (by decide)
  refine ⟨s', ds, shown, h1, h3, ?_, ?_⟩
  · rw [h5]
    simp [expected_row]
    exact ⟨rfl, rfl, rfl⟩
  · rw [h5]
    simp [expected_row]

/-- C7, as the code has it: the previous results printed with the last race of
a run of `n ≥ 1` good races always have exactly 3 rows, whatever `n`; the first
`min (n - 1) 3` of them are the vectors of the races before it, most recent
first.  (`hbounds`: every call of `get_times` stays inside `times`; `hstay`: the
operator goes on after each race but possibly the last.) -/
theorem snapshot_length {F : Type} (lib : CLib F) (fuel : Nat) (s : Session F)
    (rounds : List Round) (hfuel : 3 ≤ fuel) (hhead : 0 ≤ s.prev_head ∧ s.prev_head < 4)
    (hne : rounds ≠ [])
    (hbounds : ∀ r ∈ rounds, times_in_bounds lib r.line s.lanes = true)
    (hgood : ∀ r ∈ rounds, round_good lib s.lanes r)
    (hstay : ∀ r ∈ rounds.dropLast, stays r = true) :
    ∃ s' ds shown rows, session_loop lib fuel s rounds = some (s', ds)
      ∧ ds.getLast? = some shown
      ∧ shown.previous = some rows
      ∧ rows.length = 3
      ∧ (rows.map Prod.snd).take (min (rounds.length - 1) 3) =
          ((rounds.map (round_vector lib s.lanes)).reverse.drop 1).take 3 := by
  obtain ⟨s', ds, shown, h1, _, h3, _, h5⟩ :=
    session_loop_history lib fuel hfuel rounds s hne hhead hbounds hgood hstay
  refine ⟨s', ds, shown, _, h1, h3, h5, rfl, ?_⟩
  have hlen : rounds.length = ((rounds.map (round_vector lib s.lanes)).reverse).length := by
    simp
  rw [hlen]
  simp only [expected_row]
  generalize (rounds.map (round_vector lib s.lanes)).reverse = l
  rcases l with _ | ⟨a, _ | ⟨b, _ | ⟨c, _ | ⟨d, l⟩⟩⟩⟩ <;> simp

/-- Witness of C7: two good races on two lanes. -/
theorem snapshot_length_witness :
    ∃ s' ds shown rows,
      session_loop textlib 3 demo_session
          [demo_round "1 1.25 2 2.25", demo_round "2 1.5 1 2.5"] = some (s', ds)
      ∧ ds.getLast? = some shown
      ∧ shown.previous = some rows
      ∧ rows.length = 3
      ∧ (rows.map Prod.snd).take (min (2 - 1) 3) =
          ((List.map (round_vector textlib 2)
            [demo_round "1 1.25 2 2.25", demo_round "2 1.5 1 2.5"]).reverse.drop 1).take 3 :=
  snapshot_length textlib 3 demo_session
    [demo_round "1 1.25 2 2.25", demo_round "2 1.5 1 2.5"]
    (by decide) (by decide) (by simp) (by decide) (by decide) (by decide)

/-- Counterexample to C7 as stated: with one entry pushed, the previous results
printed have 3 rows, not `min 1 4 = 1`. -/
theorem snapshot_length_counterexample :
    ∃ s' ds shown rows,
      session_loop textlib 3 demo_session [demo_round "1 1.25 2 2.25"] = some (s', ds)
      ∧ ds.getLast? = some shown
      ∧ shown.previous = some rows
      ∧ rows.length = 3
      ∧ rows.length ≠ min 1 4 := by
  obtain ⟨s', ds, shown, h1, _, h3, _, h5⟩ :=
    session_loop_history textlib 3 (by decide) [demo_round "1 1.25 2 2.25"]
      demo_session (by simp) (by decide) (by decide) (by decide) (by decide)
  exact ⟨s', ds, shown, _, h1, h3, h5, rfl, by decide⟩

/-! ## Theorems: what leaves the history alone -/

/-- C8: when `get_times` returns 0 (null race), or returns a negative value and
the recovery started by `reinit_timer` completes, the iteration of the main
loop comes to its end with the history slots and the write position as they
were before it, and prints no previous results.  (`hbounds`: the call of
`get_times` stays inside `times`, without which C defines no outcome.) -/
theorem history_frame {F : Type} (lib : CLib F) (fuel : Nat) (s : Session F) (r : Round)
    (hbounds : times_in_bounds lib r.line s.lanes = true)
    (hnot : (get_times lib r.line s.lanes s.times s.debugmode).1 ≤ 0)
    (hrec : (get_times lib r.line s.lanes s.times s.debugmode).1 < 0 →
      (reinit_timer s.port (!s.debugmode) s.lanes r.attempts).isSome = true) :
    ∃ s' shown, loop_iteration lib fuel s r = some (s', shown)
      ∧ s'.prev_times = s.prev_times ∧ s'.prev_head = s.prev_head
      ∧ shown.previous = none := by
  have hgt : ¬ (get_times lib r.line s.lanes s.times s.debugmode).1 > 0 := by omega
  by_cases hneg : (get_times lib r.line s.lanes s.times s.debugmode).1 < 0
  · obtain ⟨rc, hrc⟩ := Option.isSome_iff_exists.mp (hrec hneg)
    simp only [loop_iteration, hgt, if_false, hneg, if_true, hrc, Option.map_some', hbounds,
      Bool.true_eq_false]
    split <;> exact ⟨_, _, rfl, rfl, rfl, rfl⟩
  · simp only [loop_iteration, hgt, if_false, hneg, hbounds, Bool.true_eq_false]
    split <;> exact ⟨_, _, rfl, rfl, rfl, rfl⟩

/-- Witness of C8: the read from the link fails and the first reconnect attempt
succeeds with the expected two lanes. -/
theorem history_frame_witness :
    ∃ s' shown,
      loop_iteration textlib 0 demo_session
          { line := none, attempts := [⟨some 6, some "Timer - 2 Lanes found".toList⟩],
            reply := some ['\n'] } = some (s', shown)
      ∧ s'.prev_times = demo_session.prev_times ∧ s'.prev_head = demo_session.prev_head
      ∧ shown.previous = none :=
  history_frame textlib 0 demo_session
    { line := none, attempts := [⟨some 6, some "Timer - 2 Lanes found".toList⟩],
      reply := some ['\n'] }
    (by decide) (by decide) (by decide)

/-! ## Theorems: what `get_times` does with lines outside the protocol -/

/-- C11, the code at the failing input: the line "-3 0.0000" is read without
error, yet `get_times` returns -3, a negative value, as it returns -1 when the
read fails; the main loop then treats the run as a link failure: it calls
`reinit_timer`, which closes port 1 and comes back with the newly opened
port 6. -/
theorem get_times_negative_on_read_line :
    (get_times textlib (some "-3 0.0000".toList) 2 (fun _ => 0) false).1 = -3
      ∧ (get_times textlib none 2 (fun _ => 0) false).1 = -1
      ∧ times_in_bounds textlib (some "-3 0.0000".toList) 2 = true
      ∧ reinit_timer 1 true 2 [⟨some 6, some "Timer - 2 Lanes found".toList⟩]
          = some ⟨6, 1, 1, [1]⟩
      ∧ ∃ s' shown,
          loop_iteration textlib 3 demo_session
            { line := some "-3 0.0000".toList,
              attempts := [⟨some 6, some "Timer - 2 Lanes found".toList⟩],
              reply := some ['\n'] } = some (s', shown)
          ∧ s'.port = 6 := by
  refine ⟨by decide, by decide, by decide, by decide, _, _, rfl, rfl⟩


theorem apply_stores_cases {F : Type} (pairs : List (Int × F)) :
    ∀ (results : Int → F) (j : Int),
      apply_stores results pairs j = results j
        ∨ ∃ p ∈ pairs, apply_stores results pairs j = p.2 := by
  induction pairs with
  | nil => intro results j; exact Or.inl rfl
  | cons q qs ih =>
    intro results j
    rw [apply_stores_cons]
    rcases ih (Function.update results (q.1 - 1) q.2) j with h | ⟨p, hp, h⟩
    · by_cases e : j = q.1 - 1
      · right
        refine ⟨q, List.mem_cons_self _ _, ?_⟩
        rw [h, e]
        simp
      · left
        rw [h]
        simp [Function.update, e]
    · exact Or.inr ⟨p, List.mem_cons_of_mem _ hp, h⟩

/-- C13, as the code has it: for every line that was read, every entry of the
time vector returned is the zero the vector was cleared with or the elapsed
time, as read, of one of the pairs stored (those in front of the first zero
time); so the entries are non-negative when those elapsed times are; and when
the stored pairs have distinct lane indices, the elapsed time of each one whose
lane index is in `1..n` stands at entry `lane - 1` as it was read, negative or
not. -/
theorem time_vector_entries {F : Type} [Zero F] [LE F] (lib : CLib F) (n : Nat)
    (line : List Char) (results : Int → F) (debug : Bool) :
    (∀ x ∈ time_vector n (get_times lib (some line) n results debug).2,
        x = lib.zero ∨ ∃ p ∈ stored_pairs lib n line, x = p.2)
      ∧ ((0 : F) ≤ lib.zero → (∀ p ∈ stored_pairs lib n line, (0 : F) ≤ p.2) →
          ∀ x ∈ time_vector n (get_times lib (some line) n results debug).2, (0 : F) ≤ x)
      ∧ (((stored_pairs lib n line).map Prod.fst).Nodup →
          ∀ p ∈ stored_pairs lib n line, 1 ≤ p.1 → p.1 ≤ (n : Int) →
            (time_vector n (get_times lib (some line) n results debug).2)[(p.1 - 1).toNat]?
              = some p.2) := by
  have hcases : ∀ x ∈ time_vector n (get_times lib (some line) n results debug).2,
      x = lib.zero ∨ ∃ p ∈ stored_pairs lib n line, x = p.2 := by
    intro x hx
    rw [get_times_some] at hx
    simp only [time_vector, List.mem_map, List.mem_range] at hx
    obtain ⟨j, hj, rfl⟩ := hx
    rcases apply_stores_cases (stored_pairs lib n line)
        (memset_floats lib.zero results n) (j : Int) with h | h
    · left
      rw [h]
      simp [memset_floats, hj]
    · exact Or.inr h
  refine ⟨hcases, ?_, ?_⟩
  · intro hzero htimes x hx
    rcases hcases x hx with rfl | ⟨p, hp, rfl⟩
    · exact hzero
    · exact htimes p hp
  · intro hnd p hp h1 hn
    have hlt : (p.1 - 1).toNat < n := by omega
    have hcast : (((p.1 - 1).toNat : Nat) : Int) = p.1 - 1 := by omega
    rw [time_vector_getElem? _ _ _ hlt, get_times_some]
    dsimp only
    rw [hcast, apply_stores_mem _ _ hnd p hp]

/-- Witness of C13: on the line "1 -1.5 2 2.5" every entry is a stored time and
the negative time of lane 1 stands at entry 0; on the line "2 1.5 1 2.5" every
entry is non-negative. -/
theorem time_vector_entries_witness :
    (∀ x ∈ time_vector 2 (get_times textlib (some "1 -1.5 2 2.5".toList) 2
          (fun _ => 0) false).2,
        x = textlib.zero ∨ ∃ p ∈ stored_pairs textlib 2 "1 -1.5 2 2.5".toList, x = p.2)
      ∧ (time_vector 2 (get_times textlib (some "1 -1.5 2 2.5".toList) 2
          (fun _ => 0) false).2)[0]? = some (mkRat (-3) 2)
      ∧ ∀ x ∈ time_vector 2 (get_times textlib (some "2 1.5 1 2.5".toList) 2
          (fun _ => 0) false).2, (0 : ℚ) ≤ x :=
  ⟨(time_vector_entries textlib 2 "1 -1.5 2 2.5".toList (fun _ => 0) false).1,
   (by simpa using
        (time_vector_entries textlib 2 "1 -1.5 2 2.5".toList (fun _ => 0) false).2.2
          (by decide) (1, mkRat (-3) 2) (by decide) (by decide) (by decide)),
   (time_vector_entries textlib 2 "2 1.5 1 2.5".toList (fun _ => 0) false).2.1
      (by decide) (by decide)⟩

/-- Counterexample to C13 as stated: the line "1 -1.5 2 2.5" is read on two
lanes and the time vector returned is [-1.5, 2.5], whose first entry is
negative. -/
theorem time_vector_entries_counterexample :
    time_vector 2 (get_times textlib (some "1 -1.5 2 2.5".toList) 2
        (fun _ => 0) false).2 = [mkRat (-3) 2, mkRat 5 2]
      ∧ ¬ ∀ x ∈ time_vector 2 (get_times textlib (some "1 -1.5 2 2.5".toList) 2
        (fun _ => 0) false).2, (0 : ℚ) ≤ x := by
  decide


/-- C18, the code at the failing input: on four lanes the line
"5 3.2001 2 3.5512 3 3.7000 4 4.0012" makes `get_times` store at `results[4]`,
one past the four floats of the time vector, and the line "0 3.2001" makes it
store at `results[-1]`; neither store is checked against the lane count. -/
theorem get_times_store_outside :
    (stored_pairs textlib 4 "5 3.2001 2 3.5512 3 3.7000 4 4.0012".toList).map
        (fun p => p.1 - 1) = [4, 1, 2, 3]
      ∧ (get_times textlib (some "5 3.2001 2 3.5512 3 3.7000 4 4.0012".toList) 4
          (fun _ => 0) false).2 4 = mkRat 32001 10000
      ∧ time_vector 4 (get_times textlib (some "5 3.2001 2 3.5512 3 3.7000 4 4.0012".toList) 4
          (fun _ => 0) false).2 = [0, mkRat 35512 10000, mkRat 37 10, mkRat 40012 10000]
      ∧ (stored_pairs textlib 4 "0 3.2001".toList).map (fun p => p.1 - 1) = [-1]
      ∧ (get_times textlib (some "0 3.2001".toList) 4 (fun _ => 0) false).2 (-1)
          = mkRat 32001 10000
      ∧ times_in_bounds textlib (some "5 3.2001 2 3.5512 3 3.7000 4 4.0012".toList) 4 = false
      ∧ times_in_bounds textlib (some "0 3.2001".toList) 4 = false := by
  decide

/-! ## Theorems: the buffers of `main` -/

/-- C17, the code at the failing input: the banner of an eight-lane timer makes
`init_timer` return 8, which exceeds `MAX_LANES = 4`; with that lane count every
line read makes `get_times` clear eight floats in `times[4]`, so no iteration
of the main loop that reads a line has a defined result. -/
theorem lane_count_exceeds_buffers {F : Type} (lib : CLib F) (fuel : Nat) (s : Session F)
    (line : List Char) (attempts : List Attempt) (reply : Option (List Char)) :
    init_timer (some "SuperDuper Timer v9.3 - 8 Lanes found".toList) = 8
      ∧ MAX_LANES < init_timer (some "SuperDuper Timer v9.3 - 8 Lanes found".toList)
      ∧ times_in_bounds lib (some line)
          (init_timer (some "SuperDuper Timer v9.3 - 8 Lanes found".toList)) = false
      ∧ loop_iteration lib fuel
          { s with lanes := init_timer (some "SuperDuper Timer v9.3 - 8 Lanes found".toList) }
          { line := some line, attempts := attempts, reply := reply } = none := by
  have h8 : init_timer (some "SuperDuper Timer v9.3 - 8 Lanes found".toList) = 8 := by decide
  have hb : times_in_bounds lib (some line) 8 = false := by
    simp [times_in_bounds, MAX_LANES]
  rw [h8]
  refine ⟨rfl, by decide, hb, ?_⟩
  simp [loop_iteration, hb]

set_option maxRecDepth 20000 in
/-- C19, the code at the failing input: on a four-lane timer, with every float
of `prev_times` holding 7.0 before `main` clears it, the startup leaves the four
cells of lane index 3 at 7.0 (the `memset` covers `3 * MAX_LANES` floats, the
twelve cells of lanes 0 to 2), and the rows printed as previous results with
the first race end in 7.0 instead of 0.0. -/
theorem history_not_cleared :
    ∃ s, startup textlib (some 1) false
          (some "SuperDuper Timer v9.3 - 4 Lanes found".toList)
          (fun _ => 0) (fun _ _ => 7) [] (some ['\n']) = some s
      ∧ s.lanes = 4 ∧ s.prev_head = 0
      ∧ (∀ i : Nat, i < 4 → s.prev_times 3 (i : Int) = 7)
      ∧ (∀ j : Nat, j < 3 → ∀ i : Nat, i < 4 → s.prev_times j (i : Int) = 0)
      ∧ ∃ s' shown,
          loop_iteration textlib 3 s (demo_round "1 3.2001 2 3.5512 3 3.7000 4 4.0012")
            = some (s', shown)
          ∧ shown.previous = some [(3, [0, 0, 0, 7]), (2, [0, 0, 0, 7]), (1, [0, 0, 0, 7])] := by
  refine ⟨_, rfl, rfl, rfl, by decide, by decide, _, _, rfl, rfl⟩


/-! ## Theorems: one iteration of the main loop, whatever its outcome -/

/-- Everything an iteration of the main loop that came to its end has done, in
terms of the value `get_times` returned. -/
theorem loop_iteration_inv {F : Type} (lib : CLib F) (fuel : Nat) (s : Session F) (r : Round)
    (s' : Session F) (d : Display F) (h : loop_iteration lib fuel s r = some (s', d)) :
    times_in_bounds lib r.line s.lanes = true
      ∧ s'.lanes = s.lanes ∧ s'.debugmode = s.debugmode
      ∧ s'.tmpbuf = (match r.reply with
          | some answer => answer
          | none => s.tmpbuf)
      ∧ d.exit = ((strchr s'.tmpbuf 'x').isSome || (strchr s'.tmpbuf 'X').isSome)
      ∧ d.written = (if d.exit = true then [] else rearm_timer s'.port s'.debugmode)
      ∧ d.winner = (if 0 < (get_times lib r.line s.lanes s.times s.debugmode).1
          then some (get_times lib r.line s.lanes s.times s.debugmode).1 else none)
      ∧ s'.prev_head = (if 0 < (get_times lib r.line s.lanes s.times s.debugmode).1
          then (if s.prev_head + 1 = 4 then 0 else s.prev_head + 1) else s.prev_head)
      ∧ s'.prev_times = (if 0 < (get_times lib r.line s.lanes s.times s.debugmode).1
          then save_times s.lanes (get_times lib r.line s.lanes s.times s.debugmode).2
            s.prev_times s.prev_head
          else s.prev_times)
      ∧ (if (get_times lib r.line s.lanes s.times s.debugmode).1 < 0
          then ∃ rc, reinit_timer s.port (!s.debugmode) s.lanes r.attempts = some rc
            ∧ s'.port = rc.fd
          else s'.port = s.port) := by
  simp only [loop_iteration] at h
  by_cases hb : times_in_bounds lib r.line s.lanes = false
  · simp [hb] at h
  · have hb1 : times_in_bounds lib r.line s.lanes = true := by simpa using hb
    refine ⟨hb1, ?_⟩
    by_cases hpos : 0 < (get_times lib r.line s.lanes s.times s.debugmode).1
    · have hneg : ¬ (get_times lib r.line s.lanes s.times s.debugmode).1 < 0 := by omega
      simp only [hb1, hpos, hneg, good_race, gt_iff_lt, if_true, if_false,
        Bool.true_eq_false] at h
      cases hpl : previous_loop s.lanes
          (save_times s.lanes (get_times lib r.line s.lanes s.times s.debugmode).2
            s.prev_times s.prev_head)
          s.prev_head fuel (if s.prev_head - 1 < 0 then 3 else s.prev_head - 1) with
      | none =>
        rw [hpl] at h
        cases h
      | some rows =>
        simp only [hpl] at h
        split at h
        · rename_i hc
          simp only [Option.some.injEq, Prod.mk.injEq] at h
          obtain ⟨rfl, rfl⟩ := h
          simp [hpos, hneg, hc]
        · rename_i hc
          simp only [Option.some.injEq, Prod.mk.injEq] at h
          obtain ⟨rfl, rfl⟩ := h
          simp only [Bool.not_eq_true] at hc
          simp [hpos, hneg, hc]
    · simp only [hb1, hpos, gt_iff_lt, if_false, Bool.true_eq_false] at h
      by_cases hneg : (get_times lib r.line s.lanes s.times s.debugmode).1 < 0
      · simp only [hneg, if_true] at h
        cases hrc : reinit_timer s.port (!s.debugmode) s.lanes r.attempts with
        | none => simp [hrc] at h
        | some rc =>
          simp only [hrc, Option.map_some'] at h
          split at h
          · rename_i hc
            simp only [Option.some.injEq, Prod.mk.injEq] at h
            obtain ⟨rfl, rfl⟩ := h
            simp [hpos, hneg, hc]
          · rename_i hc
            simp only [Option.some.injEq, Prod.mk.injEq] at h
            obtain ⟨rfl, rfl⟩ := h
            simp only [Bool.not_eq_true] at hc
            simp [hpos, hneg, hc]
      · simp only [hneg, if_false] at h
        split at h
        · rename_i hc
          simp only [Option.some.injEq, Prod.mk.injEq] at h
          obtain ⟨rfl, rfl⟩ := h
          simp [hpos, hneg, hc]
        · rename_i hc
          simp only [Option.some.injEq, Prod.mk.injEq] at h
          obtain ⟨rfl, rfl⟩ := h
          simp only [Bool.not_eq_true] at hc
          simp [hpos, hneg, hc]


theorem strchr_isSome (s : List Char) (c : Char) :
    (strchr s c).isSome = decide (c ∈ s) := by
  unfold strchr
  simp [List.indexOf?, List.findIdx?_isSome, List.any_eq]

/-- Over any run of the main loop the lane count and the debug flag stay as
they were, the port in use is the initial one or one opened by a reconnect
attempt whose banner gave that lane count, and the write position has advanced
by the number of good races, modulo 4. -/
theorem session_loop_inv {F : Type} (lib : CLib F) (fuel : Nat) (rounds : List Round) :
    ∀ (s s' : Session F) (ds : List (Display F)),
      session_loop lib fuel s rounds = some (s', ds) →
      s'.lanes = s.lanes ∧ s'.debugmode = s.debugmode
        ∧ (s'.port = s.port ∨ ∃ r ∈ rounds, ∃ a ∈ r.attempts,
            a.fopen_result = some s'.port ∧ init_timer a.banner = s.lanes)
        ∧ ((0 ≤ s.prev_head ∧ s.prev_head < 4) →
            s'.prev_head = (s.prev_head + (good_count ds : Int)) % 4) := by
  induction rounds with
  | nil =>
    intro s s' ds h
    simp only [session_loop, Option.some.injEq, Prod.mk.injEq] at h
    obtain ⟨rfl, rfl⟩ := h
    refine ⟨rfl, rfl, Or.inl rfl, ?_⟩
    intro hh
    simp only [good_count, List.filter_nil, List.length_nil]
    omega
  | cons r rest ih =>
    intro s s' ds h
    rw [session_loop] at h
    cases hstep : loop_iteration lib fuel s r with
    | none => rw [hstep] at h; cases h
    | some res =>
      obtain ⟨s1, d⟩ := res
      rw [hstep] at h
      obtain ⟨_, hl, hdbg, _, _, _, hw, hhead, _, hport⟩ :=
        loop_iteration_inv lib fuel s r s1 d hstep
      have hport1 : s1.port = s.port ∨ ∃ a ∈ r.attempts,
          a.fopen_result = some s1.port ∧ init_timer a.banner = s.lanes := by
        by_cases hneg : (get_times lib r.line s.lanes s.times s.debugmode).1 < 0
        · rw [if_pos hneg] at hport
          obtain ⟨rc, hrc, hfd⟩ := hport
          obtain ⟨_, a, ha, hfo, hla⟩ :=
            reinit_retry_some (!s.debugmode) s.lanes r.attempts 0 0 [s.port] rc hrc
          exact Or.inr ⟨a, List.getElem?_mem ha, by rw [hfd]; exact hfo, hla⟩
        · rw [if_neg hneg] at hport
          exact Or.inl hport
      have hhead1 : (0 ≤ s.prev_head ∧ s.prev_head < 4) →
          s1.prev_head = (s.prev_head + (good_count [d] : Int)) % 4
            ∧ 0 ≤ s1.prev_head ∧ s1.prev_head < 4 := by
        intro hh
        by_cases hpos : 0 < (get_times lib r.line s.lanes s.times s.debugmode).1
        · rw [if_pos hpos] at hhead hw
          simp only [good_count, List.filter, hw, Option.isSome_some, List.length_singleton]
          rw [hhead]
          split <;> omega
        · rw [if_neg hpos] at hhead hw
          simp only [good_count, List.filter, hw, Option.isSome_none, List.length_nil]
          rw [hhead]
          omega
      have hcount : ∀ ds1 : List (Display F),
          good_count (d :: ds1) = good_count [d] + good_count ds1 := by
        intro ds1
        simp only [good_count, List.filter]
        split <;> simp [Nat.add_comm]
      by_cases hex : d.exit = true
      · simp only [hex, if_true, Option.some.injEq, Prod.mk.injEq] at h
        obtain ⟨rfl, rfl⟩ := h
        refine ⟨hl, hdbg, ?_, ?_⟩
        · rcases hport1 with h1 | ⟨a, ha, h1⟩
          · exact Or.inl h1
          · exact Or.inr ⟨r, List.mem_cons_self _ _, a, ha, h1⟩
        · intro hh
          exact (hhead1 hh).1
      · simp only [hex, if_false] at h
        cases hrest : session_loop lib fuel s1 rest with
        | none => rw [hrest] at h; cases h
        | some res2 =>
          obtain ⟨s2, ds2⟩ := res2
          rw [hrest] at h
          simp only [Option.some.injEq, Prod.mk.injEq] at h
          obtain ⟨hl2, hdbg2, hport2, hhead2⟩ := ih s1 s2 ds2 hrest
          obtain ⟨rfl, rfl⟩ := h
          refine ⟨hl2.trans hl, hdbg2.trans hdbg, ?_, ?_⟩
          · rcases hport2 with h2 | ⟨r2, hr2, a, ha, h2, h3⟩
            · rcases hport1 with h1 | ⟨a, ha, h1⟩
              · exact Or.inl (h2.trans h1)
              · exact Or.inr ⟨r, List.mem_cons_self _ _, a, ha, by rw [h2]; exact h1⟩
            · exact Or.inr ⟨r2, List.mem_cons_of_mem _ hr2, a, ha, h2, by rw [h3, hl]⟩
          · intro hh
            obtain ⟨e1, e2⟩ := hhead1 hh
            rw [hcount ds2, hhead2 e2, e1]
            push_cast
            omega


theorem init_timer_values (fd : Option (List Char)) :
    init_timer fd = 0 ∨ init_timer fd = 2 ∨ init_timer fd = 4 ∨ init_timer fd = 8 := by
  cases fd with
  | none => exact Or.inl rfl
  | some line =>
    rw [init_timer_some]
    by_cases h8 : '8' ∈ line <;> by_cases h4 : '4' ∈ line <;> by_cases h2 : '2' ∈ line <;>
      simp [h8, h4, h2]

theorem startup_inv {F : Type} (lib : CLib F) (fopen_result : Option Conn) (debugmode : Bool)
    (banner : Option (List Char)) (times : Int → F) (prev_times : Nat → Int → F)
    (tmpbuf : List Char) (reply : Option (List Char)) (s0 : Session F)
    (h : startup lib fopen_result debugmode banner times prev_times tmpbuf reply = some s0) :
    s0.lanes = init_timer banner ∧ init_timer banner ≠ 0 ∧ s0.prev_head = 0
      ∧ s0.debugmode = debugmode ∧ fopen_result = some s0.port
      ∧ s0.prev_times = (fun (j : Nat) (i : Int) =>
          if 0 ≤ i ∧ i < 4 ∧ 4 * (j : Int) + i < 3 * (MAX_LANES : Int) then lib.zero
          else prev_times j i) := by
  unfold startup at h
  cases hf : fopen_result with
  | none => rw [hf] at h; simp [open_timer] at h
  | some port =>
    rw [hf] at h
    simp only [open_timer] at h
    by_cases hz : init_timer banner = 0
    · simp [hz] at h
    · simp only [hz, if_false, Option.some.injEq] at h
      subst h
      exact ⟨rfl, hz, rfl, rfl, rfl, rfl⟩

/-! ## Theorems: invariants of the session -/

/-- C12: in every state the session loop reaches after a startup that succeeded,
over any rounds (races, null races, recoveries), the lane count of the session,
which is what the loop passes to `get_times` and to `reinit_timer`, is the
value the first `init_timer` returned, it is one of 2, 4, 8, and the port in
use is the one opened at startup or one opened by a reconnect attempt whose
banner gave that same lane count. -/
theorem session_lane_count {F : Type} (lib : CLib F) (fuel : Nat)
    (fopen_result : Option Conn) (debugmode : Bool) (banner : Option (List Char))
    (times : Int → F) (prev_times : Nat → Int → F) (tmpbuf : List Char)
    (reply : Option (List Char)) (rounds : List Round) (s0 s : Session F)
    (shown : List (Display F))
    (hstart : startup lib fopen_result debugmode banner times prev_times tmpbuf reply = some s0)
    (hrun : session_loop lib fuel s0 rounds = some (s, shown)) :
    s.lanes = init_timer banner
      ∧ (s.lanes = 2 ∨ s.lanes = 4 ∨ s.lanes = 8)
      ∧ (fopen_result = some s.port ∨ ∃ r ∈ rounds, ∃ a ∈ r.attempts,
          a.fopen_result = some s.port ∧ init_timer a.banner = init_timer banner) := by
  obtain ⟨hl0, hnz, _, _, hp0, _⟩ :=
    startup_inv lib fopen_result debugmode banner times prev_times tmpbuf reply s0 hstart
  obtain ⟨hl, _, hport, _⟩ := session_loop_inv lib fuel rounds s0 s shown hrun
  have hlanes : s.lanes = init_timer banner := hl.trans hl0
  refine ⟨hlanes, ?_, ?_⟩
  · rw [hlanes]
    rcases init_timer_values banner with h | h
    · exact absurd h hnz
    · exact h
  · rcases hport with h | ⟨r, hr, a, ha, h1, h2⟩
    · left
      rw [h]
      exact hp0
    · exact Or.inr ⟨r, hr, a, ha, h1, by rw [h2, hl0]⟩

set_option maxRecDepth 20000 in
/-- Witness of C12: a two-lane timer, one good race, then a failed read whose
recovery first meets a four-lane banner and then the two-lane banner on
port 7. -/
theorem session_lane_count_witness :
    ∃ s0 s shown,
      startup textlib (some 1) false (some "Timer - 2 Lanes found".toList)
          (fun _ => 0) (fun _ _ => 0) [] (some ['\n']) = some s0
      ∧ session_loop textlib 3 s0
          [demo_round "1 1.25 2 2.25",
           { line := none,
             attempts := [⟨some 6, some "Timer - 4 Lanes found".toList⟩,
                          ⟨some 7, some "Timer - 2 Lanes found".toList⟩],
             reply := some ['\n'] }] = some (s, shown)
      ∧ s.port = 7
      ∧ s.lanes = init_timer (some "Timer - 2 Lanes found".toList)
      ∧ (s.lanes = 2 ∨ s.lanes = 4 ∨ s.lanes = 8) := by
  refine ⟨_, _, _, rfl, rfl, rfl, ?_⟩
  have h := session_lane_count textlib 3 (some 1) false
    (some "Timer - 2 Lanes found".toList) (fun _ => 0) (fun _ _ => 0) [] (some ['\n'])
    [demo_round "1 1.25 2 2.25",
     { line := none,
       attempts := [⟨some 6, some "Timer - 4 Lanes found".toList⟩,
                    ⟨some 7, some "Timer - 2 Lanes found".toList⟩],
       reply := some ['\n'] }] _ _ _ rfl rfl
  exact ⟨h.1, h.2.1⟩

/-! ## Theorems: `rearm_timer` -/

/-- C14: `rearm_timer` writes the single byte 0x20 (a space) to the link when
`debug` is false and nothing when it is true; an iteration of the main loop
that came to its end leaves the loop exactly when the operator's answer holds
an 'x' or an 'X', writes nothing to the link in that case, and otherwise
writes what one call `rearm_timer(port, debugmode)` writes, to the port then
in use. -/
theorem rearm_signal {F : Type} (lib : CLib F) (fuel : Nat) (s : Session F) (r : Round)
    (s' : Session F) (shown : Display F) (fd : Conn)
    (h : loop_iteration lib fuel s r = some (s', shown)) :
    rearm_timer fd false = [(fd, ' ')] ∧ ' '.toNat = 0x20 ∧ rearm_timer fd true = []
      ∧ (shown.exit = true ↔ ('x' ∈ s'.tmpbuf ∨ 'X' ∈ s'.tmpbuf))
      ∧ (shown.exit = true → shown.written = [])
      ∧ (shown.exit = false → shown.written = rearm_timer s'.port s.debugmode) := by
  obtain ⟨_, _, hdbg, _, hexit, hw, _⟩ := loop_iteration_inv lib fuel s r s' shown h
  refine ⟨rfl, by decide, rfl, ?_, ?_, ?_⟩
  · rw [hexit]
    simp [strchr_isSome]
  · intro he
    rw [hw, if_pos he]
  · intro he
    rw [hw, he, hdbg]
    simp

/-- Witness of C14: a null race after which the operator presses Enter; one
space goes to port 1. -/
theorem rearm_signal_witness :
    ∃ s' shown,
      loop_iteration textlib 3 demo_session (demo_round "0 0.0000 0 0.0000") = some (s', shown)
      ∧ shown.exit = false
      ∧ shown.written = [(1, ' ')] := by
  refine ⟨_, _, rfl, rfl, ?_⟩
  exact (rearm_signal textlib 3 demo_session (demo_round "0 0.0000 0 0.0000") _ _ 1
    rfl).2.2.2.2.2 rfl


/-! ## Theorems: traversal and push of the history ring -/

/-- C16: for a write position `p` in 0..3 the loop that prints the previous
results terminates (three iterations suffice) having visited the slots
`(p - 1) mod 4`, `(p - 2) mod 4`, `(p - 3) mod 4` in that order, each once and
never slot `p`, printing the row of each; and in a run of good races the row
printed in place `k` is the vector of the race `k + 1` races before the last
one, so recorded races appear from most recent to least recent. -/
theorem snapshot_traversal {F : Type} (lib : CLib F) (fuel : Nat) (lanes : Nat)
    (prev_times : Nat → Int → F) (p : Int) (s : Session F) (rounds : List Round)
    (hfuel : 3 ≤ fuel) (hp : 0 ≤ p ∧ p < 4)
    (hhead : 0 ≤ s.prev_head ∧ s.prev_head < 4) (hne : rounds ≠ [])
    (hbounds : ∀ r ∈ rounds, times_in_bounds lib r.line s.lanes = true)
    (hgood : ∀ r ∈ rounds, round_good lib s.lanes r)
    (hstay : ∀ r ∈ rounds.dropLast, stays r = true) :
    (∃ rows, previous_loop lanes prev_times p fuel (if p - 1 < 0 then 3 else p - 1) = some rows
        ∧ rows.map Prod.fst = [(p - 1) % 4, (p - 2) % 4, (p - 3) % 4]
        ∧ (rows.map Prod.fst).Nodup
        ∧ p ∉ rows.map Prod.fst
        ∧ rows.map Prod.snd =
            [previous_row lanes prev_times ((p - 1) % 4),
             previous_row lanes prev_times ((p - 2) % 4),
             previous_row lanes prev_times ((p - 3) % 4)])
      ∧ ∃ s' ds shown rows, session_loop lib fuel s rounds = some (s', ds)
        ∧ ds.getLast? = some shown
        ∧ shown.previous = some rows
        ∧ ∀ k, k < 3 → k + 1 < rounds.length →
            (rows.map Prod.snd)[k]? = (rounds.map (round_vector lib s.lanes)).reverse[k + 1]? := by
  constructor
  · have e1 : (p + 3) % 4 = (p - 1) % 4 := by omega
    have e2 : (p + 2) % 4 = (p - 2) % 4 := by omega
    have e3 : (p + 1) % 4 = (p - 3) % 4 := by omega
    refine ⟨_, previous_loop_rows lanes prev_times p fuel hfuel hp, ?_, ?_, ?_, ?_⟩
    · simp [e1, e2, e3]
    · have h : p = 0 ∨ p = 1 ∨ p = 2 ∨ p = 3 := by omega
      rcases h with rfl | rfl | rfl | rfl <;>
        (simp only [List.map_cons, List.map_nil]; decide)
    · have h : p = 0 ∨ p = 1 ∨ p = 2 ∨ p = 3 := by omega
      rcases h with rfl | rfl | rfl | rfl <;>
        (simp only [List.map_cons, List.map_nil]; decide)
    · simp [e1, e2, e3]
  · obtain ⟨s', ds, shown, h1, _, h3, _, h5⟩ :=
      session_loop_history lib fuel hfuel rounds s hne hhead hbounds hgood hstay
    refine ⟨s', ds, shown, _, h1, h3, h5, ?_⟩
    intro k hk hlen
    have hl : k + 1 < ((rounds.map (round_vector lib s.lanes)).reverse).length := by
      simpa using hlen
    have hk3 : k = 0 ∨ k = 1 ∨ k = 2 := by omega
    rcases hk3 with rfl | rfl | rfl <;>
      simp [expected_row, List.getElem?_eq_getElem hl]


/-- Witness of C16: write position 0, and a run of two good races on two
lanes. -/
theorem snapshot_traversal_witness :
    (∃ rows, previous_loop 2 (fun _ _ => (0 : ℚ)) 0 3 3 = some rows
        ∧ rows.map Prod.fst = [3, 2, 1])
      ∧ ∃ s' ds shown rows,
        session_loop textlib 3 demo_session
            [demo_round "1 1.25 2 2.25", demo_round "2 1.5 1 2.5"] = some (s', ds)
        ∧ ds.getLast? = some shown
        ∧ shown.previous = some rows
        ∧ (rows.map Prod.snd)[0]? = some (round_vector textlib 2 (demo_round "1 1.25 2 2.25")) := by
  obtain ⟨⟨rows, h1, h2, _⟩, s', ds, shown, rows2, g1, g2, g3, g4⟩ :=
    snapshot_traversal textlib 3 2 (fun _ _ => (0 : ℚ)) 0 demo_session
      [demo_round "1 1.25 2 2.25", demo_round "2 1.5 1 2.5"]
      (by decide) (by decide) (by decide) (by simp) (by decide) (by decide) (by decide)
  exact ⟨⟨rows, h1, h2⟩, s', ds, shown, rows2, g1, g2, g3, g4 0 (by decide) (by decide)⟩


theorem pushed_rows_last_four {F : Type} (a b c d : List F) (older : List (List F)) :
    ∀ (rows : Int → List F) (head : Int), 0 ≤ head ∧ head < 4 →
      pushed_rows rows head (older ++ [a, b, c, d])
          ((head + ((older ++ [a, b, c, d]).length : Int)) % 4) = a
        ∧ pushed_rows rows head (older ++ [a, b, c, d])
          ((head + ((older ++ [a, b, c, d]).length : Int) + 1) % 4) = b
        ∧ pushed_rows rows head (older ++ [a, b, c, d])
          ((head + ((older ++ [a, b, c, d]).length : Int) + 2) % 4) = c
        ∧ pushed_rows rows head (older ++ [a, b, c, d])
          ((head + ((older ++ [a, b, c, d]).length : Int) + 3) % 4) = d := by
  induction older with
  | nil =>
    intro rows head hh
    have h : head = 0 ∨ head = 1 ∨ head = 2 ∨ head = 3 := by omega
    rcases h with rfl | rfl | rfl | rfl <;> simp [pushed_rows]
  | cons x xs ih =>
    intro rows head hh
    have hh1 : 0 ≤ (head + 1) % 4 ∧ (head + 1) % 4 < 4 := by omega
    obtain ⟨h1, h2, h3, h4⟩ := ih (fun k => if k = head then x else rows k) ((head + 1) % 4) hh1
    have e0 : ((head + 1) % 4 + ((xs ++ [a, b, c, d]).length : Int)) % 4
        = (head + ((x :: xs ++ [a, b, c, d]).length : Int)) % 4 := by
      simp only [List.cons_append, List.length_cons]
      push_cast
      omega
    have e1 : ((head + 1) % 4 + ((xs ++ [a, b, c, d]).length : Int) + 1) % 4
        = (head + ((x :: xs ++ [a, b, c, d]).length : Int) + 1) % 4 := by
      simp only [List.cons_append, List.length_cons]
      push_cast
      omega
    have e2 : ((head + 1) % 4 + ((xs ++ [a, b, c, d]).length : Int) + 2) % 4
        = (head + ((x :: xs ++ [a, b, c, d]).length : Int) + 2) % 4 := by
      simp only [List.cons_append, List.length_cons]
      push_cast
      omega
    have e3 : ((head + 1) % 4 + ((xs ++ [a, b, c, d]).length : Int) + 3) % 4
        = (head + ((x :: xs ++ [a, b, c, d]).length : Int) + 3) % 4 := by
      simp only [List.cons_append, List.length_cons]
      push_cast
      omega
    rw [e0] at h1
    rw [e1] at h2
    rw [e2] at h3
    rw [e3] at h4
    exact ⟨h1, h2, h3, h4⟩

/-- A run of good races, the operator going on after each but possibly the
last, leaves the ring of previous results as `pushed_rows` describes and the
write position advanced by the number of races, modulo 4. -/
theorem session_loop_rows {F : Type} (lib : CLib F) (fuel : Nat) (hfuel : 3 ≤ fuel)
    (rounds : List Round) :
    ∀ (s : Session F), (0 ≤ s.prev_head ∧ s.prev_head < 4) →
      (∀ r ∈ rounds, times_in_bounds lib r.line s.lanes = true) →
      (∀ r ∈ rounds, round_good lib s.lanes r) →
      (∀ r ∈ rounds.dropLast, stays r = true) →
      ∃ s' ds, session_loop lib fuel s rounds = some (s', ds)
        ∧ s'.lanes = s.lanes
        ∧ s'.prev_head = (s.prev_head + (rounds.length : Int)) % 4
        ∧ ∀ i, previous_row s.lanes s'.prev_times i =
            pushed_rows (previous_row s.lanes s.prev_times) s.prev_head
              (rounds.map (round_vector lib s.lanes)) i := by
  induction rounds with
  | nil =>
    intro s hhead _ _ _
    refine ⟨s, [], rfl, rfl, ?_, fun i => rfl⟩
    simp only [List.length_nil]
    omega
  | cons r0 rest ih =>
    intro s hhead hbounds hgood hstay
    obtain ⟨s1, d0, hstep, hl, hh, hrow, _, _, hex⟩ :=
      loop_iteration_good lib fuel s r0 hfuel hhead (hbounds r0 (List.mem_cons_self _ _))
        (hgood r0 (List.mem_cons_self _ _))
    have hrows1 : previous_row s.lanes s1.prev_times =
        fun k => if k = s.prev_head then round_vector lib s.lanes r0
          else previous_row s.lanes s.prev_times k := funext hrow
    cases rest with
    | nil =>
      refine ⟨s1, [d0], ?_, hl, ?_, ?_⟩
      · simp [session_loop, hstep]
      · rw [hh]
        simp
      · intro i
        simp only [List.map_cons, List.map_nil, pushed_rows]
        exact hrow i
    | cons r1 rest' =>
      have hex0 : d0.exit = false := hex (hstay r0 (by simp [List.dropLast]))
      have hhead1 : 0 ≤ s1.prev_head ∧ s1.prev_head < 4 := by rw [hh]; omega
      obtain ⟨s', ds, hloop, hl2, hh2, hrows2⟩ :=
        ih s1 hhead1
          (by rw [hl]; intro r hr; exact hbounds r (List.mem_cons_of_mem _ hr))
          (by rw [hl]; intro r hr; exact hgood r (List.mem_cons_of_mem _ hr))
          (fun r hr => hstay r (by
            rw [List.dropLast_cons₂]
            exact List.mem_cons_of_mem _ hr))
      refine ⟨s', d0 :: ds, ?_, hl2.trans hl, ?_, ?_⟩
      · rw [session_loop, hstep]
        simp [hex0, hloop]
      · rw [hh2, hh]
        simp only [List.length_cons]
        push_cast
        omega
      · intro i
        have h := hrows2 i
        rw [hl, hh, hrows1] at h
        rw [h]
        simp only [List.map_cons, pushed_rows]


/-- C15: (1) from a write position `p` in 0..3 a good race writes its time
vector into slot `p` (lanes below the lane count), leaves every other slot as
it was and moves the write position to `(p + 1) mod 4`; (2) in every state
reached from a startup that succeeded the write position is the number of good
races so far modulo 4, hence within 0..3; (3) after a run of at least four good
races whose last four vectors are `a`, `b`, `c`, `d`, the slot at the write
position holds `a`, the oldest stored, and the three after it hold `b`, `c`,
`d`, so the next push overwrites the oldest entry. -/
theorem history_push {F : Type} (lib : CLib F) (fuel : Nat) (hfuel : 3 ≤ fuel) :
    (∀ (s : Session F) (r : Round), (0 ≤ s.prev_head ∧ s.prev_head < 4) →
        times_in_bounds lib r.line s.lanes = true → round_good lib s.lanes r →
        ∃ s' shown, loop_iteration lib fuel s r = some (s', shown)
          ∧ (∀ j, j < s.lanes →
              (round_vector lib s.lanes r)[j]? = some (s'.prev_times j s.prev_head))
          ∧ (∀ j i, i ≠ s.prev_head → s'.prev_times j i = s.prev_times j i)
          ∧ s'.prev_head = (s.prev_head + 1) % 4)
      ∧ (∀ (fopen_result : Option Conn) (debugmode : Bool) (banner : Option (List Char))
          (times : Int → F) (prev_times : Nat → Int → F) (tmpbuf : List Char)
          (reply : Option (List Char)) (rounds : List Round) (s0 s : Session F)
          (shown : List (Display F)),
          startup lib fopen_result debugmode banner times prev_times tmpbuf reply = some s0 →
          session_loop lib fuel s0 rounds = some (s, shown) →
          s.prev_head = (good_count shown : Int) % 4 ∧ 0 ≤ s.prev_head ∧ s.prev_head < 4)
      ∧ (∀ (s : Session F) (rounds : List Round) (older : List (List F)) (a b c d : List F),
          (0 ≤ s.prev_head ∧ s.prev_head < 4) →
          (∀ r ∈ rounds, times_in_bounds lib r.line s.lanes = true) →
          (∀ r ∈ rounds, round_good lib s.lanes r) →
          (∀ r ∈ rounds.dropLast, stays r = true) →
          rounds.map (round_vector lib s.lanes) = older ++ [a, b, c, d] →
          ∃ s' ds, session_loop lib fuel s rounds = some (s', ds)
            ∧ previous_row s.lanes s'.prev_times s'.prev_head = a
            ∧ previous_row s.lanes s'.prev_times ((s'.prev_head + 1) % 4) = b
            ∧ previous_row s.lanes s'.prev_times ((s'.prev_head + 2) % 4) = c
            ∧ previous_row s.lanes s'.prev_times ((s'.prev_head + 3) % 4) = d) := by
  refine ⟨?_, ?_, ?_⟩
  · intro s r hhead hbounds hgood
    obtain ⟨s', shown, hstep, _, hh, _, _, _, _⟩ :=
      loop_iteration_good lib fuel s r hfuel hhead hbounds hgood
    obtain ⟨_, _, _, _, _, _, _, _, hprev, _⟩ := loop_iteration_inv lib fuel s r s' shown hstep
    have hpos : 0 < (get_times lib r.line s.lanes s.times s.debugmode).1 := by
      rw [get_times_retval_fresh]; exact hgood
    rw [if_pos hpos] at hprev
    refine ⟨s', shown, hstep, ?_, ?_, hh⟩
    · intro j hj
      rw [← get_times_vector_fresh lib r s.lanes s.times s.debugmode hgood,
        time_vector_getElem? _ _ _ hj, hprev]
      simp [save_times, hj]
    · intro j i hi
      rw [hprev]
      simp [save_times, hi]
  · intro fopen_result debugmode banner times prev_times tmpbuf reply rounds s0 s shown
      hstart hrun
    obtain ⟨_, _, h0, _⟩ :=
      startup_inv lib fopen_result debugmode banner times prev_times tmpbuf reply s0 hstart
    obtain ⟨_, _, _, hhead⟩ := session_loop_inv lib fuel rounds s0 s shown hrun
    have h := hhead (by rw [h0]; omega)
    rw [h0] at h
    rw [h]
    omega
  · intro s rounds older a b c d hhead hbounds hgood hstay hvec
    obtain ⟨s', ds, hloop, _, hh, hrows⟩ :=
      session_loop_rows lib fuel hfuel rounds s hhead hbounds hgood hstay
    have hlen : rounds.length = (older ++ [a, b, c, d]).length := by
      rw [← hvec, List.length_map]
    obtain ⟨h1, h2, h3, h4⟩ :=
      pushed_rows_last_four a b c d older (previous_row s.lanes s.prev_times) s.prev_head hhead
    have e1 : ((s.prev_head + (rounds.length : Int)) % 4 + 1) % 4
        = (s.prev_head + (rounds.length : Int) + 1) % 4 := by omega
    have e2 : ((s.prev_head + (rounds.length : Int)) % 4 + 2) % 4
        = (s.prev_head + (rounds.length : Int) + 2) % 4 := by omega
    have e3 : ((s.prev_head + (rounds.length : Int)) % 4 + 3) % 4
        = (s.prev_head + (rounds.length : Int) + 3) % 4 := by omega
    refine ⟨s', ds, hloop, ?_, ?_, ?_, ?_⟩
    · rw [hrows, hh, hvec, hlen]; exact h1
    · rw [hrows, hh, e1, hvec, hlen]; exact h2
    · rw [hrows, hh, e2, hvec, hlen]; exact h3
    · rw [hrows, hh, e3, hvec, hlen]; exact h4

/-- Witness of C15: one good race from a cleared two-lane history at write
position 0. -/
theorem history_push_witness :
    ∃ s' shown,
      loop_iteration textlib 3 demo_session (demo_round "1 1.25 2 2.25") = some (s', shown)
      ∧ (∀ j, j < 2 →
          (round_vector textlib 2 (demo_round "1 1.25 2 2.25"))[j]? = some (s'.prev_times j 0))
      ∧ (∀ j i, i ≠ 0 → s'.prev_times j i = demo_session.prev_times j i)
      ∧ s'.prev_head = 1 :=
  (history_push textlib 3 (by decide)).1 demo_session (demo_round "1 1.25 2 2.25")
    (by decide) (by decide) (by decide)


end Judge
